import Mathlib

/-!
Verification of the B-tree market-depth engine (`btreemarketdepth.rs`).

The engine state and every operation are shallowly embedded below.  Prices
and quantities are modelled as exact rationals; price ticks are integers.
The two `BTreeMap<i64, f64>` depth maps are modelled as association lists
whose keys are kept strictly sorted (the ordered-map representation), and
the `HashMap<OrderId, L3Order>` order index as an association list.
Operations that can panic in the source (the `unwrap` calls in
`delete_order` and `modify_order`) return `Option`, with `none` standing
for a panic.
-/

namespace BTreeDepth

/-- Modelled from the spec: sentinel meaning "no bid exists"; it must sort
strictly below any legitimate tick.  The constant itself lives outside the
given source file; the value is the minimum of a signed 64-bit integer. -/
def INVALID_MIN : ℤ := -(2 ^ 63)

/-- Modelled from the spec: sentinel meaning "no ask exists"; it must sort
strictly above any legitimate tick.  The constant itself lives outside the
given source file; the value is the maximum of a signed 64-bit integer. -/
def INVALID_MAX : ℤ := 2 ^ 63 - 1

/-- Modelled from the spec: the `BUY_EVENT` bit of the event-flag bitmask. -/
def BUY_EVENT : ℕ := 2 ^ 29

/-- Modelled from the spec: the `SELL_EVENT` bit of the event-flag bitmask. -/
def SELL_EVENT : ℕ := 2 ^ 28

/-- Modelled from the spec: order side; the source also has a "neither"
variant used by `clear_depth`. -/
inductive Side where
  | Buy
  | Sell
  | Neither
deriving DecidableEq, Repr

/-- Modelled from the spec: an L3 order record. -/
structure L3Order where
  order_id : ℕ
  side : Side
  price_tick : ℤ
  qty : ℚ
  timestamp : ℤ
deriving DecidableEq, Repr

/-- Modelled from the spec: the two recoverable error kinds. -/
inductive BacktestError where
  | OrderIdExist
  | OrderNotFound
deriving DecidableEq, Repr

/-- Modelled from the spec: an event record as consumed by
`apply_snapshot` (only the fields this engine reads). -/
structure Event where
  ev : ℕ
  px : ℚ
  qty : ℚ
deriving DecidableEq, Repr

/-- Rust `f64::round`: round to nearest, ties away from zero. -/
def roundQ (x : ℚ) : ℤ := if 0 ≤ x then ⌊x + 1 / 2⌋ else -⌊1 / 2 - x⌋

/-- Rust `(price / tick_size).round() as i64`. -/
def toTick (px tick_size : ℚ) : ℤ := roundQ (px / tick_size)

/-- A depth map: association list from price tick to aggregate quantity,
keys kept strictly increasing (the `BTreeMap<i64, f64>` model). -/
abbrev DepthMap := List (ℤ × ℚ)

/-- Rust `BTreeMap::get`. -/
def dLookup (t : ℤ) : DepthMap → Option ℚ
  | [] => none
  | (k, v) :: rest => if t = k then some v else dLookup t rest

/-- Rust `BTreeMap::insert` (set, replacing any previous value), keeping keys
sorted. -/
def dInsert (t : ℤ) (q : ℚ) : DepthMap → DepthMap
  | [] => [(t, q)]
  | (k, v) :: rest =>
    if t < k then (t, q) :: (k, v) :: rest
    else if t = k then (t, q) :: rest
    else (k, v) :: dInsert t q rest

/-- Rust `BTreeMap::remove` (a no-op when the key is absent). -/
def dErase (t : ℤ) : DepthMap → DepthMap
  | [] => []
  | (k, v) :: rest => if t = k then rest else (k, v) :: dErase t rest

/-- The key list of a depth map, in storage (ascending) order. -/
def dKeys (m : DepthMap) : List ℤ := m.map Prod.fst

/-- Rust `keys().next()`: the first (smallest) key of the ordered map. -/
def firstKey (m : DepthMap) : Option ℤ := (dKeys m).head?

/-- Rust `keys().last()`: the last (largest) key of the ordered map. -/
def lastKey (m : DepthMap) : Option ℤ := (dKeys m).getLast?

/-- Rust `HashMap::get` on the order index. -/
def oLookup (id : ℕ) : List (ℕ × L3Order) → Option L3Order
  | [] => none
  | (k, o) :: rest => if id = k then some o else oLookup id rest

/-- Rust `HashMap::remove` on the order index. -/
def oErase (id : ℕ) : List (ℕ × L3Order) → List (ℕ × L3Order)
  | [] => []
  | (k, o) :: rest => if id = k then rest else (k, o) :: oErase id rest

/-- Rust `HashMap::get_mut` followed by overwriting the stored order (keys are
unique in a `HashMap`, so rewriting every matching entry is the same
operation). -/
def oUpdate (id : ℕ) (o : L3Order) : List (ℕ × L3Order) → List (ℕ × L3Order)
  | [] => []
  | (k, o0) :: rest =>
    (if k = id then (k, o) else (k, o0)) :: oUpdate id o rest

/-- The engine state (`struct BTreeMarketDepth`). -/
structure BTreeMarketDepth where
  tick_size : ℚ
  lot_size : ℚ
  timestamp : ℤ
  bid_depth : DepthMap
  ask_depth : DepthMap
  best_bid_tick : ℤ
  best_ask_tick : ℤ
  orders : List (ℕ × L3Order)
deriving DecidableEq, Repr

/-- Constructor `BTreeMarketDepth::new`. -/
def new (tick_size lot_size : ℚ) : BTreeMarketDepth :=
  { tick_size := tick_size
    lot_size := lot_size
    timestamp := 0
    bid_depth := []
    ask_depth := []
    best_bid_tick := INVALID_MIN
    best_ask_tick := INVALID_MAX
    orders := [] }

/-- The private `add` helper: insert an L3 order into the index (failing
with `OrderIdExist` when the id is taken) and add its quantity to the
aggregate depth at its tick. -/
def add (s : BTreeMarketDepth) (order : L3Order) :
    Except BacktestError BTreeMarketDepth :=
  match oLookup order.order_id s.orders with
  | some _ => .error .OrderIdExist
  | none =>
    let s1 := { s with orders := (order.order_id, order) :: s.orders }
    if order.side = Side.Buy then
      .ok { s1 with
              bid_depth := dInsert order.price_tick
                ((dLookup order.price_tick s1.bid_depth).getD 0 + order.qty)
                s1.bid_depth }
    else
      .ok { s1 with
              ask_depth := dInsert order.price_tick
                ((dLookup order.price_tick s1.ask_depth).getD 0 + order.qty)
                s1.ask_depth }

/-- Source `L2MarketDepth::update_bid_depth`.  Returns the tuple
`(price_tick, prev_best_tick, new_best_tick, prev_qty, qty, timestamp)`
together with the post-state. -/
def update_bid_depth (s : BTreeMarketDepth) (price qty : ℚ) (timestamp : ℤ) :
    (ℤ × ℤ × ℤ × ℚ × ℚ × ℤ) × BTreeMarketDepth :=
  let price_tick := toTick price s.tick_size
  let prev_best_bid_tick := (lastKey s.bid_depth).getD INVALID_MIN
  let prev_qty := (dLookup prev_best_bid_tick s.bid_depth).getD 0
  let bid2 :=
    if roundQ (qty / s.lot_size) = 0 then dErase price_tick s.bid_depth
    else dInsert price_tick qty s.bid_depth
  let best2 := (lastKey bid2).getD INVALID_MIN
  ((price_tick, prev_best_bid_tick, best2, prev_qty, qty, timestamp),
    { s with bid_depth := bid2, best_bid_tick := best2 })

/-- Source `L2MarketDepth::update_ask_depth`.  Note the source reads the
"previous best ask" from `bid_depth.keys().next()`, not from `ask_depth`;
this is transcribed as-is. -/
def update_ask_depth (s : BTreeMarketDepth) (price qty : ℚ) (timestamp : ℤ) :
    (ℤ × ℤ × ℤ × ℚ × ℚ × ℤ) × BTreeMarketDepth :=
  let price_tick := toTick price s.tick_size
  let prev_best_ask_tick := (firstKey s.bid_depth).getD INVALID_MAX
  let prev_qty := (dLookup prev_best_ask_tick s.ask_depth).getD 0
  let ask2 :=
    if roundQ (qty / s.lot_size) = 0 then dErase price_tick s.ask_depth
    else dInsert price_tick qty s.ask_depth
  let best2 := (firstKey ask2).getD INVALID_MAX
  ((price_tick, prev_best_ask_tick, best2, prev_qty, qty, timestamp),
    { s with ask_depth := ask2, best_ask_tick := best2 })

/-- Source `L2MarketDepth::clear_depth`: remove the bid levels between
`clear_upto` and the cached best (inclusive), respectively the ask levels
between the cached best and `clear_upto`; with a "neither" side, clear
both maps (without refreshing the cached bests, as in the source). -/
def clear_depth_l2 (s : BTreeMarketDepth) (side : Side)
    (clear_upto_price : ℚ) : BTreeMarketDepth :=
  let clear_upto := toTick clear_upto_price s.tick_size
  match side with
  | Side.Buy =>
    let bid2 :=
      if s.best_bid_tick ≠ INVALID_MIN then
        s.bid_depth.filter
          (fun p => !(decide (clear_upto ≤ p.1) && decide (p.1 ≤ s.best_bid_tick)))
      else s.bid_depth
    { s with bid_depth := bid2,
             best_bid_tick := (lastKey bid2).getD INVALID_MIN }
  | Side.Sell =>
    let ask2 :=
      if s.best_ask_tick ≠ INVALID_MAX then
        s.ask_depth.filter
          (fun p => !(decide (s.best_ask_tick ≤ p.1) && decide (p.1 ≤ clear_upto)))
      else s.ask_depth
    { s with ask_depth := ask2,
             best_ask_tick := (firstKey ask2).getD INVALID_MAX }
  | Side.Neither =>
    { s with bid_depth := [], ask_depth := [] }

/-- Source `L3MarketDepth::clear_depth`: wipe the aggregate map(s) of the given
side; neither the cached best ticks nor the order index are touched, as
in the source. -/
def clear_depth_l3 (s : BTreeMarketDepth) (side : Side) : BTreeMarketDepth :=
  match side with
  | Side.Buy => { s with bid_depth := [] }
  | Side.Sell => { s with ask_depth := [] }
  | Side.Neither => { s with bid_depth := [], ask_depth := [] }

/-- One iteration of the `apply_snapshot` loop over the event rows. -/
def applyEvent (tick_size : ℚ) (m : DepthMap × DepthMap) (e : Event) :
    DepthMap × DepthMap :=
  let price_tick := toTick e.px tick_size
  if e.ev &&& BUY_EVENT = BUY_EVENT then (dInsert price_tick e.qty m.1, m.2)
  else if e.ev &&& SELL_EVENT = SELL_EVENT then
    (m.1, dInsert price_tick e.qty m.2)
  else m

/-- Source `ApplySnapshot::apply_snapshot`: clear both maps, replay the batch,
then refresh both cached best ticks. -/
def apply_snapshot (s : BTreeMarketDepth) (data : List Event) :
    BTreeMarketDepth :=
  let m := data.foldl (applyEvent s.tick_size) ([], [])
  { s with bid_depth := m.1
           ask_depth := m.2
           best_bid_tick := (lastKey m.1).getD INVALID_MIN
           best_ask_tick := (firstKey m.2).getD INVALID_MAX }

/-- Source `ApplySnapshot::snapshot`: the emitter body is commented out in the
source, so it returns an empty batch. -/
def snapshot (_s : BTreeMarketDepth) : List Event := []

/-- Source `L3MarketDepth::add_buy_order`. -/
def add_buy_order (s : BTreeMarketDepth) (order_id : ℕ) (px qty : ℚ)
    (timestamp : ℤ) : Except BacktestError (ℤ × ℤ) × BTreeMarketDepth :=
  let price_tick := toTick px s.tick_size
  match add s { order_id := order_id, side := Side.Buy,
                price_tick := price_tick, qty := qty,
                timestamp := timestamp } with
  | .error e => (.error e, s)
  | .ok s1 =>
    let prev_best_tick := s1.best_bid_tick
    let s2 :=
      if price_tick > s1.best_bid_tick then
        { s1 with best_bid_tick := (lastKey s1.bid_depth).getD INVALID_MIN }
      else s1
    (.ok (prev_best_tick, s2.best_bid_tick), s2)

/-- Source `L3MarketDepth::add_sell_order`. -/
def add_sell_order (s : BTreeMarketDepth) (order_id : ℕ) (px qty : ℚ)
    (timestamp : ℤ) : Except BacktestError (ℤ × ℤ) × BTreeMarketDepth :=
  let price_tick := toTick px s.tick_size
  match add s { order_id := order_id, side := Side.Sell,
                price_tick := price_tick, qty := qty,
                timestamp := timestamp } with
  | .error e => (.error e, s)
  | .ok s1 =>
    let prev_best_tick := s1.best_ask_tick
    let s2 :=
      if price_tick < s1.best_ask_tick then
        { s1 with best_ask_tick := (firstKey s1.ask_depth).getD INVALID_MAX }
      else s1
    (.ok (prev_best_tick, s2.best_ask_tick), s2)

/-- Source `L3MarketDepth::delete_order`.  `none` models the panic of the
`unwrap` on the depth lookup.  Note the source refreshes the best bid
from `keys().next()` (the smallest key); this is transcribed as-is. -/
def delete_order (s : BTreeMarketDepth) (order_id : ℕ) (_timestamp : ℤ) :
    Option (Except BacktestError (Side × ℤ × ℤ) × BTreeMarketDepth) :=
  match oLookup order_id s.orders with
  | none => some (.error .OrderNotFound, s)
  | some order =>
    let s1 := { s with orders := oErase order_id s.orders }
    if order.side = Side.Buy then
      let prev_best_tick := s1.best_bid_tick
      match dLookup order.price_tick s1.bid_depth with
      | none => none
      | some q0 =>
        let q1 := q0 - order.qty
        if roundQ (q1 / s1.lot_size) = 0 then
          let bid2 := dErase order.price_tick s1.bid_depth
          let best2 :=
            if order.price_tick = s1.best_bid_tick then
              (firstKey bid2).getD INVALID_MIN
            else s1.best_bid_tick
          some (.ok (Side.Buy, prev_best_tick, best2),
            { s1 with bid_depth := bid2, best_bid_tick := best2 })
        else
          some (.ok (Side.Buy, prev_best_tick, s1.best_bid_tick),
            { s1 with bid_depth := dInsert order.price_tick q1 s1.bid_depth })
    else
      let prev_best_tick := s1.best_ask_tick
      match dLookup order.price_tick s1.ask_depth with
      | none => none
      | some q0 =>
        let q1 := q0 - order.qty
        if roundQ (q1 / s1.lot_size) = 0 then
          let ask2 := dErase order.price_tick s1.ask_depth
          let best2 :=
            if order.price_tick = s1.best_ask_tick then
              (firstKey ask2).getD INVALID_MAX
            else s1.best_ask_tick
          some (.ok (Side.Sell, prev_best_tick, best2),
            { s1 with ask_depth := ask2, best_ask_tick := best2 })
        else
          some (.ok (Side.Sell, prev_best_tick, s1.best_ask_tick),
            { s1 with ask_depth := dInsert order.price_tick q1 s1.ask_depth })

/-- Source `L3MarketDepth::modify_order`.  `none` models the panic of the
`unwrap` on the depth lookup. -/
def modify_order (s : BTreeMarketDepth) (order_id : ℕ) (px qty : ℚ)
    (timestamp : ℤ) :
    Option (Except BacktestError (Side × ℤ × ℤ) × BTreeMarketDepth) :=
  match oLookup order_id s.orders with
  | none => some (.error .OrderNotFound, s)
  | some order =>
    if order.side = Side.Buy then
      let prev_best_tick := s.best_bid_tick
      let price_tick := toTick px s.tick_size
      if price_tick ≠ order.price_tick then
        match dLookup order.price_tick s.bid_depth with
        | none => none
        | some q0 =>
          let q1 := q0 - order.qty
          let bid1 :=
            if roundQ (q1 / s.lot_size) = 0 then
              dErase order.price_tick s.bid_depth
            else dInsert order.price_tick q1 s.bid_depth
          let best1 :=
            if roundQ (q1 / s.lot_size) = 0 ∧
                order.price_tick = s.best_bid_tick then
              (lastKey (dErase order.price_tick s.bid_depth)).getD INVALID_MIN
            else s.best_bid_tick
          let newOrder :=
            { order with price_tick := price_tick, qty := qty,
                         timestamp := timestamp }
          let bid2 :=
            dInsert price_tick ((dLookup price_tick bid1).getD 0 + qty) bid1
          let best2 :=
            if price_tick > best1 then (lastKey bid2).getD INVALID_MIN
            else best1
          some (.ok (Side.Buy, prev_best_tick, best2),
            { s with orders := oUpdate order_id newOrder s.orders,
                     bid_depth := bid2, best_bid_tick := best2 })
      else
        match dLookup order.price_tick s.bid_depth with
        | none => none
        | some q0 =>
          some (.ok (Side.Buy, s.best_bid_tick, s.best_bid_tick),
            { s with orders := oUpdate order_id { order with qty := qty } s.orders,
                     bid_depth :=
                       dInsert order.price_tick (q0 + (qty - order.qty))
                         s.bid_depth })
    else
      let prev_best_tick := s.best_ask_tick
      let price_tick := toTick px s.tick_size
      if price_tick ≠ order.price_tick then
        match dLookup order.price_tick s.ask_depth with
        | none => none
        | some q0 =>
          let q1 := q0 - order.qty
          let ask1 :=
            if roundQ (q1 / s.lot_size) = 0 then
              dErase order.price_tick s.ask_depth
            else dInsert order.price_tick q1 s.ask_depth
          let best1 :=
            if roundQ (q1 / s.lot_size) = 0 ∧
                order.price_tick = s.best_ask_tick then
              (firstKey (dErase order.price_tick s.ask_depth)).getD INVALID_MAX
            else s.best_ask_tick
          let newOrder :=
            { order with price_tick := price_tick, qty := qty,
                         timestamp := timestamp }
          let ask2 :=
            dInsert price_tick ((dLookup price_tick ask1).getD 0 + qty) ask1
          let best2 :=
            if price_tick < best1 then (firstKey ask2).getD INVALID_MAX
            else best1
          some (.ok (Side.Sell, prev_best_tick, best2),
            { s with orders := oUpdate order_id newOrder s.orders,
                     ask_depth := ask2, best_ask_tick := best2 })
      else
        match dLookup order.price_tick s.ask_depth with
        | none => none
        | some q0 =>
          some (.ok (Side.Sell, s.best_ask_tick, s.best_ask_tick),
            { s with orders := oUpdate order_id { order with qty := qty } s.orders,
                     ask_depth :=
                       dInsert order.price_tick (q0 + (qty - order.qty))
                         s.ask_depth })

/-- One engine operation (the claims quantify over sequences of these). -/
inductive Op where
  | updBid (px qty : ℚ) (ts : ℤ)
  | updAsk (px qty : ℚ) (ts : ℤ)
  | clearL2 (side : Side) (upto : ℚ)
  | clearL3 (side : Side)
  | addBuy (id : ℕ) (px qty : ℚ) (ts : ℤ)
  | addSell (id : ℕ) (px qty : ℚ) (ts : ℤ)
  | delOrder (id : ℕ) (ts : ℤ)
  | modOrder (id : ℕ) (px qty : ℚ) (ts : ℤ)
  | applySnap (data : List Event)
deriving DecidableEq, Repr

/-- Run one operation; `none` is a panic. -/
def step (s : BTreeMarketDepth) : Op → Option BTreeMarketDepth
  | .updBid px qty ts => some (update_bid_depth s px qty ts).2
  | .updAsk px qty ts => some (update_ask_depth s px qty ts).2
  | .clearL2 side upto => some (clear_depth_l2 s side upto)
  | .clearL3 side => some (clear_depth_l3 s side)
  | .addBuy id px qty ts => some (add_buy_order s id px qty ts).2
  | .addSell id px qty ts => some (add_sell_order s id px qty ts).2
  | .delOrder id ts => (delete_order s id ts).map Prod.snd
  | .modOrder id px qty ts => (modify_order s id px qty ts).map Prod.snd
  | .applySnap data => some (apply_snapshot s data)

/-- Run a sequence of operations; `none` as soon as one panics. -/
def runOps (s : BTreeMarketDepth) : List Op → Option BTreeMarketDepth
  | [] => some s
  | op :: rest =>
    match step s op with
    | none => none
    | some s2 => runOps s2 rest

/-- Aggregate quantity of the L3 orders of a given side resting at a given
tick (the reference value for invariant I4). -/
def sideSum (sd : Side) (t : ℤ) (os : List (ℕ × L3Order)) : ℚ :=
  ((os.filter fun p => decide (p.2.side = sd) && decide (p.2.price_tick = t)).map
    fun p => p.2.qty).sum

/-- Contribution of a single order to `sideSum sd t`. -/
def contrib (sd : Side) (t : ℤ) (o : L3Order) : ℚ :=
  if o.side = sd ∧ o.price_tick = t then o.qty else 0

/-- Invariant I1, bid side: the cached best bid tick is the maximum key of
the bid map, or `INVALID_MIN` when the map is empty. -/
def maxKeyProp (b : ℤ) (m : DepthMap) : Prop :=
  (m = [] ∧ b = INVALID_MIN) ∨ (b ∈ dKeys m ∧ ∀ k ∈ dKeys m, k ≤ b)

/-- Invariant I1, ask side: the cached best ask tick is the minimum key of
the ask map, or `INVALID_MAX` when the map is empty. -/
def minKeyProp (b : ℤ) (m : DepthMap) : Prop :=
  (m = [] ∧ b = INVALID_MAX) ∨ (b ∈ dKeys m ∧ ∀ k ∈ dKeys m, b ≤ k)

/-- The operation is an L2 update with non-negative quantity, or a
`clear_depth` (either form). -/
def okL2 : Op → Bool
  | .updBid _ qty _ => decide (0 ≤ qty)
  | .updAsk _ qty _ => decide (0 ≤ qty)
  | .clearL2 _ _ => true
  | .clearL3 _ => true
  | _ => false

/-- The operation is an L3 mutator whose quantity (where it has one)
rounds to at least one lot. -/
def okL3 (ls : ℚ) : Op → Bool
  | .addBuy _ _ qty _ => decide (1 ≤ roundQ (qty / ls))
  | .addSell _ _ qty _ => decide (1 ≤ roundQ (qty / ls))
  | .delOrder _ _ => true
  | .modOrder _ _ qty _ => decide (1 ≤ roundQ (qty / ls))
  | _ => false

/-- Combined invariant of the L3-only fragment: the order index has
unique ids, every stored order is a buy or a sell whose quantity is at
least half a lot, keys of both depth maps are strictly sorted, and each
aggregate level equals the sum of its side's resting orders. -/
structure L3Inv (ls : ℚ) (s : BTreeMarketDepth) : Prop where
  lot_eq : s.lot_size = ls
  nd : (s.orders.map Prod.fst).Nodup
  qty_ok : ∀ p ∈ s.orders, ls / 2 ≤ p.2.qty
  sides : ∀ p ∈ s.orders, p.2.side = Side.Buy ∨ p.2.side = Side.Sell
  bid_sorted : (dKeys s.bid_depth).Sorted (· < ·)
  ask_sorted : (dKeys s.ask_depth).Sorted (· < ·)
  bid_sum : ∀ t, (dLookup t s.bid_depth).getD 0 = sideSum Side.Buy t s.orders
  ask_sum : ∀ t, (dLookup t s.ask_depth).getD 0 = sideSum Side.Sell t s.orders

/-- Invariant of the L2-only fragment: every stored level rounds to at
least one lot. -/
structure L2Inv (ls : ℚ) (s : BTreeMarketDepth) : Prop where
  lot_eq : s.lot_size = ls
  bid_ok : ∀ p ∈ s.bid_depth, 1 ≤ roundQ (p.2 / ls)
  ask_ok : ∀ p ∈ s.ask_depth, 1 ≤ roundQ (p.2 / ls)

/-- The record carries the `BUY_EVENT` bit. -/
def isBuyEvent (e : Event) : Bool := e.ev &&& BUY_EVENT == BUY_EVENT

/-- The record carries the `SELL_EVENT` bit. -/
def isSellEvent (e : Event) : Bool := e.ev &&& SELL_EVENT == SELL_EVENT

/-- Last-writer-wins reference value for a bid tick in a snapshot batch:
the quantity of the last record with the `BUY_EVENT` bit whose price maps
to the tick. -/
def lastBidWrite (tick_size : ℚ) (data : List Event) (t : ℤ) : Option ℚ :=
  ((data.filter fun e =>
    isBuyEvent e && decide (toTick e.px tick_size = t)).getLast?).map
    Event.qty

/-- Last-writer-wins reference value for an ask tick in a snapshot batch:
the quantity of the last record with the `SELL_EVENT` bit but not the
`BUY_EVENT` bit (buy takes precedence) whose price maps to the tick. -/
def lastAskWrite (tick_size : ℚ) (data : List Event) (t : ℤ) : Option ℚ :=
  ((data.filter fun e =>
    !isBuyEvent e && isSellEvent e &&
      decide (toTick e.px tick_size = t)).getLast?).map Event.qty

/-! ### Arithmetic facts about rounding -/

theorem roundQ_nonneg {x : ℚ} (hx : 0 ≤ x) : 0 ≤ roundQ x := by
  rw [roundQ, if_pos hx]
  exact Int.le_floor.mpr (by push_cast; linarith)

theorem one_le_roundQ_iff {x : ℚ} : 1 ≤ roundQ x ↔ 1 / 2 ≤ x := by
  constructor
  · intro h
    rw [roundQ] at h
    by_cases hx : 0 ≤ x
    · rw [if_pos hx] at h
      have := Int.le_floor.mp h
      push_cast at this
      linarith
    · rw [if_neg hx] at h
      push_neg at hx
      have h0 : (0 : ℤ) ≤ ⌊1 / 2 - x⌋ := Int.le_floor.mpr (by push_cast; linarith)
      omega
  · intro h
    have hx : 0 ≤ x := by linarith
    rw [roundQ, if_pos hx]
    exact Int.le_floor.mpr (by push_cast; linarith)

theorem lt_half_of_roundQ_eq_zero {x : ℚ} (h : roundQ x = 0) : x < 1 / 2 := by
  by_contra hc
  push_neg at hc
  have := one_le_roundQ_iff.mpr hc
  omega

theorem roundQ_ne_zero_of_half_le {x : ℚ} (h : 1 / 2 ≤ x) : roundQ x ≠ 0 := by
  have := one_le_roundQ_iff.mpr h
  omega

theorem one_le_roundQ_of_nonneg_ne_zero {x : ℚ} (hx : 0 ≤ x)
    (h : roundQ x ≠ 0) : 1 ≤ roundQ x := by
  have := roundQ_nonneg hx
  omega

theorem half_lot_le_of_roundQ {q ls : ℚ} (hls : 0 < ls)
    (h : 1 ≤ roundQ (q / ls)) : ls / 2 ≤ q := by
  have hx : 1 / 2 ≤ q / ls := one_le_roundQ_iff.mp h
  rw [le_div_iff₀ hls] at hx
  linarith

theorem lt_half_lot_of_roundQ_zero {q ls : ℚ} (hls : 0 < ls)
    (h : roundQ (q / ls) = 0) : q < ls / 2 := by
  have hx : q / ls < 1 / 2 := lt_half_of_roundQ_eq_zero h
  rw [div_lt_iff₀ hls] at hx
  linarith

/-! ### Depth-map lemmas -/

theorem dLookup_dInsert (t u : ℤ) (q : ℚ) (l : DepthMap) :
    dLookup u (dInsert t q l) = if u = t then some q else dLookup u l := by
  induction l with
  | nil => by_cases h : u = t <;> simp [dInsert, dLookup, h]
  | cons p rest ih =>
    obtain ⟨k, v⟩ := p
    rcases lt_trichotomy t k with h1 | h1 | h1
    · simp only [dInsert, if_pos h1]
      by_cases h3 : u = t <;> simp [dLookup, h3]
    · subst h1
      simp only [dInsert, if_neg (lt_irrefl t), if_pos rfl]
      by_cases h3 : u = t <;> simp [dLookup, h3]
    · have h1a : ¬t < k := by omega
      have h2 : ¬t = k := by omega
      simp only [dInsert, if_neg h1a, if_neg h2, dLookup]
      by_cases h4 : u = k
      · have h5 : ¬u = t := by omega
        have h6 : ¬k = t := fun hh => h2 hh.symm
        simp [h4, h5, h6]
      · simp [h4, ih]

theorem dLookup_dErase_ne {t u : ℤ} (h : u ≠ t) (l : DepthMap) :
    dLookup u (dErase t l) = dLookup u l := by
  induction l with
  | nil => simp [dErase]
  | cons p rest ih =>
    obtain ⟨k, v⟩ := p
    by_cases h2 : t = k
    · subst h2
      simp [dErase, dLookup, h]
    · by_cases h4 : u = k <;> simp [dErase, dLookup, h2, h4, ih]

theorem dErase_sublist (t : ℤ) (l : DepthMap) : (dErase t l).Sublist l := by
  induction l with
  | nil => simp [dErase]
  | cons p rest ih =>
    obtain ⟨k, v⟩ := p
    simp only [dErase]
    by_cases h : t = k
    · rw [if_pos h]
      exact List.sublist_cons_self _ _
    · rw [if_neg h]
      exact List.Sublist.cons₂ _ ih

theorem mem_dErase {p : ℤ × ℚ} {t : ℤ} {l : DepthMap} (h : p ∈ dErase t l) :
    p ∈ l := (dErase_sublist t l).mem h

theorem mem_dInsert {p : ℤ × ℚ} {t : ℤ} {q : ℚ} {l : DepthMap}
    (h : p ∈ dInsert t q l) : p = (t, q) ∨ p ∈ l := by
  induction l with
  | nil => simpa [dInsert] using h
  | cons hd rest ih =>
    obtain ⟨k, v⟩ := hd
    rcases lt_trichotomy t k with h1 | h1 | h1
    · simp only [dInsert, if_pos h1] at h
      rcases List.mem_cons.mp h with h | h
      · exact Or.inl h
      · exact Or.inr h
    · subst h1
      simp only [dInsert, if_neg (lt_irrefl t), if_pos rfl] at h
      rcases List.mem_cons.mp h with h | h
      · exact Or.inl h
      · exact Or.inr (List.mem_cons_of_mem _ h)
    · have h1a : ¬t < k := by omega
      have h2 : ¬t = k := by omega
      simp only [dInsert, if_neg h1a, if_neg h2] at h
      rcases List.mem_cons.mp h with h | h
      · exact Or.inr (List.mem_cons.mpr (Or.inl h))
      · rcases ih h with h | h
        · exact Or.inl h
        · exact Or.inr (List.mem_cons_of_mem _ h)

theorem mem_dKeys_dInsert {u t : ℤ} {q : ℚ} {l : DepthMap}
    (h : u ∈ dKeys (dInsert t q l)) : u = t ∨ u ∈ dKeys l := by
  rw [dKeys, List.mem_map] at h
  obtain ⟨p, hp, hpe⟩ := h
  rcases mem_dInsert hp with h | h
  · left; rw [← hpe, h]
  · right; rw [dKeys, List.mem_map]; exact ⟨p, h, hpe⟩

theorem dInsert_sorted {t : ℤ} {q : ℚ} {l : DepthMap}
    (h : (dKeys l).Sorted (· < ·)) :
    (dKeys (dInsert t q l)).Sorted (· < ·) := by
  induction l with
  | nil => simp [dInsert, dKeys]
  | cons hd rest ih =>
    obtain ⟨k, v⟩ := hd
    simp only [dKeys, List.map_cons, List.sorted_cons] at h
    obtain ⟨hk, hrest⟩ := h
    rcases lt_trichotomy t k with h1 | h1 | h1
    · simp only [dInsert, if_pos h1, dKeys, List.map_cons, List.sorted_cons]
      refine ⟨?_, hk, hrest⟩
      intro b hb
      rcases List.mem_cons.mp hb with h | h
      · omega
      · have := hk b h
        omega
    · subst h1
      have he : dInsert t q ((t, v) :: rest) = (t, q) :: rest := by
        simp [dInsert]
      rw [he]
      simp only [dKeys, List.map_cons, List.sorted_cons]
      exact ⟨hk, hrest⟩
    · have h1a : ¬t < k := by omega
      have h2 : ¬t = k := by omega
      simp only [dInsert, if_neg h1a, if_neg h2, dKeys, List.map_cons,
        List.sorted_cons]
      refine ⟨?_, ih hrest⟩
      intro b hb
      rcases @mem_dKeys_dInsert b t q rest hb with h | h
      · omega
      · exact hk b h

theorem dErase_sorted {t : ℤ} {l : DepthMap}
    (h : (dKeys l).Sorted (· < ·)) :
    (dKeys (dErase t l)).Sorted (· < ·) :=
  h.sublist (List.Sublist.map Prod.fst (dErase_sublist t l))

theorem sorted_nodup {l : List ℤ} (h : l.Sorted (· < ·)) : l.Nodup :=
  h.imp (fun hab => ne_of_lt hab)

theorem dLookup_eq_none_of_notMem {t : ℤ} {l : DepthMap}
    (h : t ∉ dKeys l) : dLookup t l = none := by
  induction l with
  | nil => simp [dLookup]
  | cons p rest ih =>
    obtain ⟨k, v⟩ := p
    simp only [dKeys, List.map_cons, List.mem_cons, not_or] at h
    simp only [dLookup, if_neg h.1]
    exact ih h.2

theorem dLookup_dErase_self {t : ℤ} {l : DepthMap}
    (hnd : (dKeys l).Nodup) : dLookup t (dErase t l) = none := by
  induction l with
  | nil => simp [dErase, dLookup]
  | cons p rest ih =>
    obtain ⟨k, v⟩ := p
    simp only [dKeys, List.map_cons, List.nodup_cons] at hnd
    by_cases h2 : t = k
    · subst h2
      simp only [dErase, if_pos rfl]
      exact dLookup_eq_none_of_notMem hnd.1
    · simp only [dErase, if_neg h2, dLookup, if_neg h2]
      exact ih hnd.2

theorem dErase_of_lookup_none {t : ℤ} {l : DepthMap}
    (h : dLookup t l = none) : dErase t l = l := by
  induction l with
  | nil => simp [dErase]
  | cons p rest ih =>
    obtain ⟨k, v⟩ := p
    simp only [dLookup] at h
    by_cases h2 : t = k
    · simp [h2] at h
    · simp only [if_neg h2] at h
      simp [dErase, if_neg h2, ih h]

theorem dLookup_mem {t : ℤ} {q : ℚ} {l : DepthMap}
    (h : dLookup t l = some q) : (t, q) ∈ l := by
  induction l with
  | nil => simp [dLookup] at h
  | cons p rest ih =>
    obtain ⟨k, v⟩ := p
    simp only [dLookup] at h
    by_cases h2 : t = k
    · rw [if_pos h2] at h
      have hv : v = q := by injection h
      exact List.mem_cons.mpr (Or.inl (by rw [h2, ← hv]))
    · rw [if_neg h2] at h
      exact List.mem_cons_of_mem _ (ih h)

theorem getLast?_mem_list {l : List ℤ} {b : ℤ} (h : l.getLast? = some b) :
    b ∈ l := by
  have hb : b ∈ l.getLast? := by simp [h]
  obtain ⟨h2, h3⟩ := List.mem_getLast?_eq_getLast hb
  rw [h3]
  exact List.getLast_mem h2

theorem sorted_getLast?_max {l : List ℤ} (h : l.Sorted (· < ·)) {b : ℤ}
    (hb : l.getLast? = some b) : ∀ a ∈ l, a ≤ b := by
  induction l with
  | nil => simp at hb
  | cons x rest ih =>
    rw [List.sorted_cons] at h
    obtain ⟨hx, hrest⟩ := h
    intro a ha
    cases rest with
    | nil =>
      simp at hb ha
      omega
    | cons y r2 =>
      rw [List.getLast?_cons_cons] at hb
      rcases List.mem_cons.mp ha with h | h
      · have hbm : b ∈ y :: r2 := getLast?_mem_list hb
        have := hx b hbm
        omega
      · exact ih hrest hb a h

theorem sorted_head?_min {l : List ℤ} (h : l.Sorted (· < ·)) {b : ℤ}
    (hb : l.head? = some b) : ∀ a ∈ l, b ≤ a := by
  cases l with
  | nil => simp at hb
  | cons x rest =>
    simp only [List.head?_cons, Option.some.injEq] at hb
    subst hb
    rw [List.sorted_cons] at h
    intro a ha
    rcases List.mem_cons.mp ha with h2 | h2
    · omega
    · exact le_of_lt (h.1 a h2)

theorem lastKey_maxKeyProp {m : DepthMap}
    (h : (dKeys m).Sorted (· < ·)) :
    maxKeyProp ((lastKey m).getD INVALID_MIN) m := by
  cases hm : lastKey m with
  | none =>
    left
    rw [lastKey] at hm
    have : dKeys m = [] := by
      cases hk : dKeys m with
      | nil => rfl
      | cons a r => rw [hk] at hm; simp [List.getLast?_eq_getLast] at hm
    constructor
    · cases m with
      | nil => rfl
      | cons p r => simp [dKeys] at this
    · simp
  | some b =>
    right
    rw [lastKey] at hm
    constructor
    · simpa using getLast?_mem_list hm
    · simpa using sorted_getLast?_max h hm

theorem firstKey_minKeyProp {m : DepthMap}
    (h : (dKeys m).Sorted (· < ·)) :
    minKeyProp ((firstKey m).getD INVALID_MAX) m := by
  cases hm : firstKey m with
  | none =>
    left
    rw [firstKey] at hm
    have : dKeys m = [] := by
      cases hk : dKeys m with
      | nil => rfl
      | cons a r => rw [hk] at hm; simp at hm
    constructor
    · cases m with
      | nil => rfl
      | cons p r => simp [dKeys] at this
    · simp
  | some b =>
    right
    rw [firstKey] at hm
    constructor
    · simpa using List.mem_of_mem_head? hm
    · simpa using sorted_head?_min h hm

/-! ### Order-index lemmas -/

theorem oLookup_mem {id : ℕ} {o : L3Order} {os : List (ℕ × L3Order)}
    (h : oLookup id os = some o) : (id, o) ∈ os := by
  induction os with
  | nil => simp [oLookup] at h
  | cons p rest ih =>
    obtain ⟨k, o0⟩ := p
    simp only [oLookup] at h
    by_cases h2 : id = k
    · rw [if_pos h2] at h
      have hv : o0 = o := by injection h
      exact List.mem_cons.mpr (Or.inl (by rw [h2, ← hv]))
    · rw [if_neg h2] at h
      exact List.mem_cons_of_mem _ (ih h)

theorem oLookup_none_notMem {id : ℕ} {os : List (ℕ × L3Order)}
    (h : oLookup id os = none) : id ∉ os.map Prod.fst := by
  induction os with
  | nil => simp
  | cons p rest ih =>
    obtain ⟨k, o0⟩ := p
    simp only [oLookup] at h
    by_cases h2 : id = k
    · rw [if_pos h2] at h
      exact absurd h (by simp)
    · rw [if_neg h2] at h
      simp only [List.map_cons, List.mem_cons, not_or]
      exact ⟨h2, ih h⟩

theorem oErase_sublist (id : ℕ) (os : List (ℕ × L3Order)) :
    (oErase id os).Sublist os := by
  induction os with
  | nil => simp [oErase]
  | cons p rest ih =>
    obtain ⟨k, o0⟩ := p
    simp only [oErase]
    by_cases h : id = k
    · rw [if_pos h]
      exact List.sublist_cons_self _ _
    · rw [if_neg h]
      exact List.Sublist.cons₂ _ ih

theorem mem_oErase {p : ℕ × L3Order} {id : ℕ} {os : List (ℕ × L3Order)}
    (h : p ∈ oErase id os) : p ∈ os := (oErase_sublist id os).mem h

theorem oErase_nodup (id : ℕ) {os : List (ℕ × L3Order)}
    (nd : (os.map Prod.fst).Nodup) : ((oErase id os).map Prod.fst).Nodup :=
  nd.sublist (List.Sublist.map Prod.fst (oErase_sublist id os))

theorem mem_oUpdate {p : ℕ × L3Order} {id : ℕ} {o2 : L3Order}
    {os : List (ℕ × L3Order)} (h : p ∈ oUpdate id o2 os) :
    p.2 = o2 ∨ p ∈ os := by
  induction os with
  | nil => simp [oUpdate] at h
  | cons hd rest ih =>
    obtain ⟨k, o0⟩ := hd
    simp only [oUpdate] at h
    rcases List.mem_cons.mp h with h | h
    · by_cases h2 : k = id
      · rw [if_pos h2] at h
        left
        rw [h]
      · rw [if_neg h2] at h
        right
        exact List.mem_cons.mpr (Or.inl h)
    · rcases ih h with h | h
      · exact Or.inl h
      · exact Or.inr (List.mem_cons_of_mem _ h)

theorem oUpdate_keys (id : ℕ) (o2 : L3Order) (os : List (ℕ × L3Order)) :
    (oUpdate id o2 os).map Prod.fst = os.map Prod.fst := by
  induction os with
  | nil => simp [oUpdate]
  | cons hd rest ih =>
    obtain ⟨k, o0⟩ := hd
    simp only [oUpdate, List.map_cons, ih]
    by_cases h2 : k = id <;> simp [h2]

theorem oUpdate_of_notMem {id : ℕ} {o2 : L3Order} {os : List (ℕ × L3Order)}
    (h : id ∉ os.map Prod.fst) : oUpdate id o2 os = os := by
  induction os with
  | nil => simp [oUpdate]
  | cons hd rest ih =>
    obtain ⟨k, o0⟩ := hd
    simp only [List.map_cons, List.mem_cons, not_or] at h
    have hne : ¬k = id := fun hh => h.1 hh.symm
    simp only [oUpdate, if_neg hne]
    rw [ih h.2]

/-! ### Side-sum lemmas -/

theorem sideSum_nil (sd : Side) (t : ℤ) : sideSum sd t [] = 0 := by
  simp [sideSum]

theorem sideSum_cons (sd : Side) (t : ℤ) (p : ℕ × L3Order)
    (os : List (ℕ × L3Order)) :
    sideSum sd t (p :: os) = contrib sd t p.2 + sideSum sd t os := by
  by_cases h1 : p.2.side = sd
  · by_cases h2 : p.2.price_tick = t
    · simp [sideSum, contrib, List.filter_cons, h1, h2]
    · simp [sideSum, contrib, List.filter_cons, h1, h2]
  · simp [sideSum, contrib, List.filter_cons, h1]

theorem contrib_nonneg (sd : Side) (t : ℤ) {o : L3Order} (h : 0 ≤ o.qty) :
    0 ≤ contrib sd t o := by
  rw [contrib]
  split
  · exact h
  · exact le_refl 0

theorem sideSum_nonneg (sd : Side) (t : ℤ) {os : List (ℕ × L3Order)}
    (h : ∀ p ∈ os, 0 ≤ p.2.qty) : 0 ≤ sideSum sd t os := by
  induction os with
  | nil => simp [sideSum]
  | cons p rest ih =>
    rw [sideSum_cons]
    have h1 := contrib_nonneg sd t (h p (List.mem_cons_self p rest))
    have h2 := ih fun p2 hp2 => h p2 (List.mem_cons_of_mem _ hp2)
    linarith

theorem sideSum_oErase (sd : Side) (t : ℤ) {id : ℕ} {o : L3Order}
    {os : List (ℕ × L3Order)} (h : oLookup id os = some o) :
    sideSum sd t os = contrib sd t o + sideSum sd t (oErase id os) := by
  induction os with
  | nil => simp [oLookup] at h
  | cons p rest ih =>
    obtain ⟨k, o0⟩ := p
    simp only [oLookup] at h
    by_cases h2 : id = k
    · rw [if_pos h2] at h
      have ho : o0 = o := by injection h
      subst ho
      simp only [oErase, if_pos h2]
      rw [sideSum_cons]
    · rw [if_neg h2] at h
      simp only [oErase, if_neg h2]
      rw [sideSum_cons, sideSum_cons, ih h]
      ring

theorem contrib_le_sideSum (sd : Side) (t : ℤ) {id : ℕ} {o : L3Order}
    {os : List (ℕ × L3Order)} (hm : (id, o) ∈ os) (hside : o.side = sd)
    (ht : o.price_tick = t) (hq : ∀ p ∈ os, 0 ≤ p.2.qty) :
    o.qty ≤ sideSum sd t os := by
  induction os with
  | nil => simp at hm
  | cons p rest ih =>
    rw [sideSum_cons]
    rcases List.mem_cons.mp hm with h | h
    · have hc : contrib sd t p.2 = o.qty := by
        rw [← h]
        simp [contrib, hside, ht]
      have h2 : 0 ≤ sideSum sd t rest :=
        sideSum_nonneg sd t fun p2 hp2 => hq p2 (List.mem_cons_of_mem _ hp2)
      linarith
    · have h1 : 0 ≤ contrib sd t p.2 :=
        contrib_nonneg sd t (hq p (List.mem_cons_self p rest))
      have h2 := ih h fun p2 hp2 => hq p2 (List.mem_cons_of_mem _ hp2)
      linarith

theorem sideSum_eq_zero (sd : Side) (t : ℤ) {os : List (ℕ × L3Order)}
    (h : ∀ p ∈ os, ¬(p.2.side = sd ∧ p.2.price_tick = t)) :
    sideSum sd t os = 0 := by
  induction os with
  | nil => simp [sideSum]
  | cons p rest ih =>
    rw [sideSum_cons]
    have h1 : contrib sd t p.2 = 0 := by
      rw [contrib, if_neg (h p (List.mem_cons_self p rest))]
    rw [h1, ih fun p2 hp2 => h p2 (List.mem_cons_of_mem _ hp2), add_zero]

theorem sideSum_oUpdate (sd : Side) (t : ℤ) {id : ℕ} {o : L3Order}
    (o2 : L3Order) {os : List (ℕ × L3Order)} (h : oLookup id os = some o)
    (nd : (os.map Prod.fst).Nodup) :
    sideSum sd t (oUpdate id o2 os) =
      sideSum sd t os - contrib sd t o + contrib sd t o2 := by
  induction os with
  | nil => simp [oLookup] at h
  | cons p rest ih =>
    obtain ⟨k, o0⟩ := p
    simp only [List.map_cons, List.nodup_cons] at nd
    simp only [oLookup] at h
    simp only [oUpdate]
    by_cases h2 : id = k
    · rw [if_pos h2] at h
      have ho : o0 = o := by injection h
      subst ho
      rw [if_pos h2.symm]
      rw [oUpdate_of_notMem (h2 ▸ nd.1)]
      rw [sideSum_cons, sideSum_cons]
      simp only []
      ring
    · rw [if_neg h2] at h
      have hne : ¬k = id := fun hh => h2 hh.symm
      rw [if_neg hne]
      rw [sideSum_cons, sideSum_cons, ih h nd.2]
      ring

/-! ### Shapes of the fallible L3 operations -/

theorem delete_order_shape {s : BTreeMarketDepth} {id : ℕ} (ts : ℤ)
    {o : L3Order} (h : oLookup id s.orders = some o) :
    delete_order s id ts = none ∨
    ∃ r s2, delete_order s id ts = some (Except.ok r, s2) := by
  simp only [delete_order, h]
  by_cases hside : o.side = Side.Buy
  · simp only [if_pos hside]
    cases hd : dLookup o.price_tick s.bid_depth with
    | none => exact Or.inl rfl
    | some q0 =>
      right
      by_cases hz : roundQ ((q0 - o.qty) / s.lot_size) = 0
      · simp only [if_pos hz]
        exact ⟨_, _, rfl⟩
      · simp only [if_neg hz]
        exact ⟨_, _, rfl⟩
  · simp only [if_neg hside]
    cases hd : dLookup o.price_tick s.ask_depth with
    | none => exact Or.inl rfl
    | some q0 =>
      right
      by_cases hz : roundQ ((q0 - o.qty) / s.lot_size) = 0
      · simp only [if_pos hz]
        exact ⟨_, _, rfl⟩
      · simp only [if_neg hz]
        exact ⟨_, _, rfl⟩

theorem modify_order_shape {s : BTreeMarketDepth} {id : ℕ} (px qty : ℚ)
    (ts : ℤ) {o : L3Order} (h : oLookup id s.orders = some o) :
    modify_order s id px qty ts = none ∨
    ∃ r s2, modify_order s id px qty ts = some (Except.ok r, s2) := by
  simp only [modify_order, h]
  by_cases hside : o.side = Side.Buy
  · simp only [if_pos hside]
    by_cases hne : toTick px s.tick_size ≠ o.price_tick
    · simp only [if_pos hne]
      cases hd : dLookup o.price_tick s.bid_depth with
      | none => exact Or.inl rfl
      | some q0 => exact Or.inr ⟨_, _, rfl⟩
    · simp only [if_neg hne]
      cases hd : dLookup o.price_tick s.bid_depth with
      | none => exact Or.inl rfl
      | some q0 => exact Or.inr ⟨_, _, rfl⟩
  · simp only [if_neg hside]
    by_cases hne : toTick px s.tick_size ≠ o.price_tick
    · simp only [if_pos hne]
      cases hd : dLookup o.price_tick s.ask_depth with
      | none => exact Or.inl rfl
      | some q0 => exact Or.inr ⟨_, _, rfl⟩
    · simp only [if_neg hne]
      cases hd : dLookup o.price_tick s.ask_depth with
      | none => exact Or.inl rfl
      | some q0 => exact Or.inr ⟨_, _, rfl⟩

/-! ### Claim C5 -/

/-- C5: an L2 update with price mapping to tick `t` removes `t` from that
side's map when the quantity rounds to zero lots (and is a no-op on the
map when `t` was already absent), and otherwise sets the entry at `t` to
exactly the given quantity, replacing any previous value; entries at all
other ticks of that side are unchanged.  The sortedness hypotheses say
that the depth lists are well-formed ordered maps, which holds for every
engine state. -/
theorem c5_l2_update_replace_semantics (s : BTreeMarketDepth)
    (price qty : ℚ) (ts : ℤ) (u : ℤ)
    (hbid : (dKeys s.bid_depth).Sorted (· < ·))
    (hask : (dKeys s.ask_depth).Sorted (· < ·)) :
    (dLookup u ((update_bid_depth s price qty ts).2).bid_depth =
      if u = toTick price s.tick_size then
        if roundQ (qty / s.lot_size) = 0 then none else some qty
      else dLookup u s.bid_depth) ∧
    (dLookup u ((update_ask_depth s price qty ts).2).ask_depth =
      if u = toTick price s.tick_size then
        if roundQ (qty / s.lot_size) = 0 then none else some qty
      else dLookup u s.ask_depth) ∧
    (roundQ (qty / s.lot_size) = 0 →
      dLookup (toTick price s.tick_size) s.bid_depth = none →
      ((update_bid_depth s price qty ts).2).bid_depth = s.bid_depth) ∧
    (roundQ (qty / s.lot_size) = 0 →
      dLookup (toTick price s.tick_size) s.ask_depth = none →
      ((update_ask_depth s price qty ts).2).ask_depth = s.ask_depth) := by
  refine ⟨?_, ?_, ?_, ?_⟩
  · simp only [update_bid_depth]
    by_cases hz : roundQ (qty / s.lot_size) = 0
    · rw [if_pos hz]
      by_cases hu : u = toTick price s.tick_size
      · subst hu
        rw [if_pos rfl, if_pos hz]
        exact dLookup_dErase_self (sorted_nodup hbid)
      · rw [if_neg hu]
        exact dLookup_dErase_ne hu s.bid_depth
    · rw [if_neg hz, dLookup_dInsert]
      by_cases hu : u = toTick price s.tick_size
      · rw [if_pos hu, if_pos hu, if_neg hz]
      · rw [if_neg hu, if_neg hu]
  · simp only [update_ask_depth]
    by_cases hz : roundQ (qty / s.lot_size) = 0
    · rw [if_pos hz]
      by_cases hu : u = toTick price s.tick_size
      · subst hu
        rw [if_pos rfl, if_pos hz]
        exact dLookup_dErase_self (sorted_nodup hask)
      · rw [if_neg hu]
        exact dLookup_dErase_ne hu s.ask_depth
    · rw [if_neg hz, dLookup_dInsert]
      by_cases hu : u = toTick price s.tick_size
      · rw [if_pos hu, if_pos hu, if_neg hz]
      · rw [if_neg hu, if_neg hu]
  · intro hz habs
    simp only [update_bid_depth, if_pos hz]
    exact dErase_of_lookup_none habs
  · intro hz habs
    simp only [update_ask_depth, if_pos hz]
    exact dErase_of_lookup_none habs

/-- Witness for C5 at a concrete input. -/
theorem c5_witness :
    (dKeys (new 1 1).bid_depth).Sorted (· < ·) ∧
    (dKeys (new 1 1).ask_depth).Sorted (· < ·) ∧
    dLookup 5 ((update_bid_depth (new 1 1) 5 1 0).2).bid_depth =
      (if (5 : ℤ) = toTick 5 (new 1 1).tick_size then
        if roundQ ((1 : ℚ) / (new 1 1).lot_size) = 0 then none else some 1
      else dLookup 5 (new 1 1).bid_depth) := by
  refine ⟨by simp [new, dKeys], by simp [new, dKeys], ?_⟩
  exact (c5_l2_update_replace_semantics (new 1 1) 5 1 0 5
    (by simp [new, dKeys]) (by simp [new, dKeys])).1

/-! ### Claim C6 -/

/-- C6: `add_buy_order`/`add_sell_order` return `OrderIdExist` exactly
when the id is already indexed, `delete_order`/`modify_order` return
`OrderNotFound` exactly when it is not, and in every error case the
post-state is exactly the pre-state. -/
theorem c6_error_iff_state_unchanged (s : BTreeMarketDepth) (id : ℕ)
    (px qty : ℚ) (ts : ℤ) :
    (add_buy_order s id px qty ts = (.error .OrderIdExist, s) ↔
      (oLookup id s.orders).isSome) ∧
    (add_sell_order s id px qty ts = (.error .OrderIdExist, s) ↔
      (oLookup id s.orders).isSome) ∧
    (delete_order s id ts = some (.error .OrderNotFound, s) ↔
      oLookup id s.orders = none) ∧
    (modify_order s id px qty ts = some (.error .OrderNotFound, s) ↔
      oLookup id s.orders = none) := by
  refine ⟨?_, ?_, ?_, ?_⟩
  · cases h : oLookup id s.orders with
    | some o => simp [add_buy_order, add, h]
    | none => simp [add_buy_order, add, h]
  · cases h : oLookup id s.orders with
    | some o => simp [add_sell_order, add, h]
    | none => simp [add_sell_order, add, h]
  · cases h : oLookup id s.orders with
    | some o =>
      constructor
      · intro hc
        exfalso
        rcases delete_order_shape ts h with h1 | ⟨r, s2, h1⟩ <;>
          rw [h1] at hc <;> simp at hc
      · intro hc
        simp at hc
    | none => simp [delete_order, h]
  · cases h : oLookup id s.orders with
    | some o =>
      constructor
      · intro hc
        exfalso
        rcases modify_order_shape px qty ts h with
          h1 | ⟨r, s2, h1⟩ <;> rw [h1] at hc <;> simp at hc
      · intro hc
        simp at hc
    | none => simp [modify_order, h]

/-- Witness for C6 at a concrete input. -/
theorem c6_witness :
    (add_buy_order (new 1 1) 7 5 1 0 = (.error .OrderIdExist, new 1 1) ↔
      (oLookup 7 (new 1 1).orders).isSome) ∧
    (add_sell_order (new 1 1) 7 5 1 0 = (.error .OrderIdExist, new 1 1) ↔
      (oLookup 7 (new 1 1).orders).isSome) ∧
    (delete_order (new 1 1) 7 0 = some (.error .OrderNotFound, new 1 1) ↔
      oLookup 7 (new 1 1).orders = none) ∧
    (modify_order (new 1 1) 7 5 1 0 = some (.error .OrderNotFound, new 1 1) ↔
      oLookup 7 (new 1 1).orders = none) :=
  c6_error_iff_state_unchanged (new 1 1) 7 5 1 0

/-! ### Claim C10 -/

/-- C10: a successful `modify_order` whose new price maps to the order's
current tick only rewrites the order's quantity (its `price_tick` and
`timestamp` fields, hence the timestamp argument, are untouched), changes
that single level by exactly the quantity difference, and leaves every
other level, the other side, the index keys and both cached best ticks
unchanged. -/
theorem c10_modify_same_tick_frame (s : BTreeMarketDepth) (id : ℕ)
    (px qty : ℚ) (ts : ℤ) (o : L3Order) (q0 : ℚ)
    (ho : oLookup id s.orders = some o)
    (ht : toTick px s.tick_size = o.price_tick) :
    (o.side = Side.Buy → dLookup o.price_tick s.bid_depth = some q0 →
      modify_order s id px qty ts =
        some (.ok (Side.Buy, s.best_bid_tick, s.best_bid_tick),
          { s with orders := oUpdate id { o with qty := qty } s.orders,
                   bid_depth :=
                     dInsert o.price_tick (q0 + (qty - o.qty))
                       s.bid_depth })) ∧
    (o.side = Side.Sell → dLookup o.price_tick s.ask_depth = some q0 →
      modify_order s id px qty ts =
        some (.ok (Side.Sell, s.best_ask_tick, s.best_ask_tick),
          { s with orders := oUpdate id { o with qty := qty } s.orders,
                   ask_depth :=
                     dInsert o.price_tick (q0 + (qty - o.qty))
                       s.ask_depth })) ∧
    (∀ m : DepthMap, ∀ u : ℤ, u ≠ o.price_tick →
      dLookup u (dInsert o.price_tick (q0 + (qty - o.qty)) m) =
        dLookup u m) ∧
    (∀ m : DepthMap,
      dLookup o.price_tick (dInsert o.price_tick (q0 + (qty - o.qty)) m) =
        some (q0 + (qty - o.qty))) ∧
    (oUpdate id { o with qty := qty } s.orders).map Prod.fst =
      s.orders.map Prod.fst := by
  refine ⟨?_, ?_, ?_, ?_, oUpdate_keys _ _ _⟩
  · intro hside hq0
    simp only [modify_order, ho, if_pos hside]
    rw [if_neg (not_not_intro ht), hq0]
  · intro hside hq0
    have hnb : ¬o.side = Side.Buy := by
      rw [hside]
      intro hc
      cases hc
    simp only [modify_order, ho, if_neg hnb]
    rw [if_neg (not_not_intro ht), hq0]
  · intro m u hu
    rw [dLookup_dInsert, if_neg hu]
  · intro m
    rw [dLookup_dInsert, if_pos rfl]

/-- Witness for C10: modify order 1 at its own tick from qty 1 to 2. -/
theorem c10_witness :
    oLookup 1 ((add_buy_order (new 1 1) 1 10 1 0).2).orders =
      some { order_id := 1, side := Side.Buy, price_tick := 10, qty := 1,
             timestamp := 0 } ∧
    toTick 10 ((add_buy_order (new 1 1) 1 10 1 0).2).tick_size = 10 ∧
    modify_order ((add_buy_order (new 1 1) 1 10 1 0).2) 1 10 2 99 =
      some (.ok (Side.Buy,
          ((add_buy_order (new 1 1) 1 10 1 0).2).best_bid_tick,
          ((add_buy_order (new 1 1) 1 10 1 0).2).best_bid_tick),
        { (add_buy_order (new 1 1) 1 10 1 0).2 with
            orders := oUpdate 1
              { order_id := 1, side := Side.Buy, price_tick := 10, qty := 2,
                timestamp := 0 }
              ((add_buy_order (new 1 1) 1 10 1 0).2).orders,
            bid_depth := dInsert 10 (1 + (2 - 1))
              ((add_buy_order (new 1 1) 1 10 1 0).2).bid_depth }) := by
  have h1 : oLookup 1 ((add_buy_order (new 1 1) 1 10 1 0).2).orders =
      some { order_id := 1, side := Side.Buy, price_tick := 10, qty := 1,
             timestamp := 0 } := by
    norm_num [add_buy_order, add, new, oLookup, dLookup, dInsert, dKeys,
      lastKey, firstKey, toTick, roundQ, INVALID_MIN, INVALID_MAX]
  have h2 : toTick 10 ((add_buy_order (new 1 1) 1 10 1 0).2).tick_size =
      (10 : ℤ) := by
    norm_num [add_buy_order, add, new, oLookup, toTick, roundQ, dKeys,
      lastKey, INVALID_MIN]
  have h3 : dLookup (10 : ℤ) ((add_buy_order (new 1 1) 1 10 1 0).2).bid_depth =
      some 1 := by
    norm_num [add_buy_order, add, new, oLookup, dLookup, dInsert, dKeys,
      lastKey, firstKey, toTick, roundQ, INVALID_MIN, INVALID_MAX]
  refine ⟨h1, h2, ?_⟩
  have := (c10_modify_same_tick_frame ((add_buy_order (new 1 1) 1 10 1 0).2)
    1 10 2 99 _ 1 h1 h2).1 rfl h3
  simpa using this

/-! ### Claim C1 -/

/-- C1 (code bug): after buy orders at ticks 10, 20 and 30, deleting the
order at the best tick 30 makes the code refresh `best_bid_tick` from
`keys().next()`, the smallest remaining key: the cache ends at 10 even
though the maximum bid key is 20, violating invariant I1. -/
theorem c1_delete_best_bid_from_min_key :
    ((runOps (new 1 1) [Op.addBuy 1 10 1 0, Op.addBuy 2 20 1 0,
        Op.addBuy 3 30 1 0, Op.delOrder 3 0]).map
      fun s => (s.best_bid_tick, s.bid_depth)) =
      some (10, [(10, 1), (20, 1)]) ∧
    ¬maxKeyProp 10 [(10, 1), (20, 1)] := by
  constructor
  · norm_num [runOps, step, new, add_buy_order, add, delete_order, oLookup,
      oErase, dLookup, dInsert, dErase, dKeys, firstKey, lastKey, toTick,
      roundQ, INVALID_MIN, INVALID_MAX]
  · intro h
    rcases h with ⟨h1, _⟩ | ⟨_, h2⟩
    · simp at h1
    · have := h2 20 (by simp [dKeys])
      omega

/-! ### Claim C2 -/

/-- C2 (code bug): `snapshot` is stubbed and emits an empty batch, so the
round trip `apply_snapshot(snapshot())` wipes a non-empty book instead of
reconstructing it: after one bid level at tick 10 the round trip yields an
empty bid map. -/
theorem c2_snapshot_roundtrip_loses_depth :
    ((update_bid_depth (new 1 1) 10 1 0).2).bid_depth = [(10, 1)] ∧
    snapshot ((update_bid_depth (new 1 1) 10 1 0).2) = [] ∧
    (apply_snapshot (new 1 1)
      (snapshot ((update_bid_depth (new 1 1) 10 1 0).2))).bid_depth = [] := by
  refine ⟨?_, rfl, rfl⟩
  norm_num [update_bid_depth, new, dInsert, dErase, dLookup, dKeys, firstKey,
    lastKey, toTick, roundQ, INVALID_MIN, INVALID_MAX]

/-! ### Claim C3 -/

/-- C3 (code bug): `update_ask_depth` reads the "previous best ask" from
`bid_depth.keys().next()`.  With one ask level at tick 5 and an empty bid
side, a second ask update returns `prev_best_tick = INVALID_MAX` and
`prev_qty = 0` although the minimum ask key before the update was 5 with
quantity 1. -/
theorem c3_ask_update_prev_best_reads_bid_map :
    firstKey ((update_ask_depth (new 1 1) 5 1 0).2).ask_depth = some 5 ∧
    dLookup 5 ((update_ask_depth (new 1 1) 5 1 0).2).ask_depth = some 1 ∧
    (update_ask_depth ((update_ask_depth (new 1 1) 5 1 0).2) 7 2 0).1.2.1 =
      INVALID_MAX ∧
    (update_ask_depth ((update_ask_depth (new 1 1) 5 1 0).2) 7 2 0).1.2.2.2.1
      = 0 ∧
    INVALID_MAX ≠ 5 := by
  refine ⟨?_, ?_, ?_, ?_, by norm_num [INVALID_MAX]⟩ <;>
    norm_num [update_ask_depth, new, dInsert, dErase, dLookup, dKeys,
      firstKey, lastKey, toTick, roundQ, INVALID_MIN, INVALID_MAX]

/-! ### Counterexample for claim C4 -/

/-- C4 fails as stated: a same-tick `modify_order` that lowers the order
quantity to zero leaves the level in the bid map with aggregate 0, which
rounds to zero lots. -/
theorem c4_counterexample_zero_lot_level_survives :
    ((runOps (new 1 1) [Op.addBuy 1 10 1 0, Op.modOrder 1 10 0 0]).map
      fun s => (dLookup 10 s.bid_depth).map fun q => roundQ (q / s.lot_size))
      = some (some 0) := by
  norm_num [runOps, step, new, add_buy_order, add, modify_order, oLookup,
    oUpdate, dLookup, dInsert, dErase, dKeys, firstKey, lastKey, toTick,
    roundQ, INVALID_MIN, INVALID_MAX]

/-! ### Counterexample for claim C8 -/

/-- C8 fails as stated: with two buy orders of 0.4 lots at tick 10,
deleting one rounds the remaining 0.4-lot aggregate to zero and erases
the level, while the remaining order still sums to 2/5 ≠ 0. -/
theorem c8_counterexample_erased_level_nonzero_sum :
    ((runOps (new 1 1) [Op.addBuy 1 10 (2/5) 0, Op.addBuy 2 10 (2/5) 0,
        Op.delOrder 1 0]).map
      fun s => (dLookup 10 s.bid_depth, sideSum Side.Buy 10 s.orders))
      = some (none, 2/5) ∧ (2/5 : ℚ) ≠ 0 := by
  constructor
  · norm_num [runOps, step, new, add_buy_order, add, delete_order, oLookup,
      oErase, dLookup, dInsert, dErase, dKeys, firstKey, lastKey, toTick,
      roundQ, INVALID_MIN, INVALID_MAX, sideSum, contrib]
  · norm_num

/-! ### Counterexample for claim C7 -/

/-- C7 fails as stated: a record carrying both the `BUY_EVENT` and the
`SELL_EVENT` bit is routed only to `bid_depth` (the `else if` gives buy
precedence), so its quantity never reaches `ask_depth`. -/
theorem c7_counterexample_both_bits_skip_ask :
    (Event.mk (BUY_EVENT ||| SELL_EVENT) 5 1).ev &&& SELL_EVENT =
      SELL_EVENT ∧
    (apply_snapshot (new 1 1)
      [Event.mk (BUY_EVENT ||| SELL_EVENT) 5 1]).ask_depth = [] ∧
    (apply_snapshot (new 1 1)
      [Event.mk (BUY_EVENT ||| SELL_EVENT) 5 1]).bid_depth = [(5, 1)] := by
  have hbuy : (Event.mk (BUY_EVENT ||| SELL_EVENT) 5 1).ev &&& BUY_EVENT =
      BUY_EVENT := by decide
  refine ⟨by decide, ?_, ?_⟩ <;>
    norm_num [apply_snapshot, applyEvent, hbuy, new, dInsert, dKeys,
      firstKey, lastKey, toTick, roundQ, INVALID_MIN, INVALID_MAX]

/-! ### The L2-only invariant (amended claim C4) -/

theorem L2Inv_new (tsz ls : ℚ) : L2Inv ls (new tsz ls) :=
  ⟨rfl, by simp [new], by simp [new]⟩

theorem L2Inv_step {ls : ℚ} (hls : 0 < ls) {s : BTreeMarketDepth} {op : Op}
    (hinv : L2Inv ls s) (hop : okL2 op = true) :
    ∃ s2, step s op = some s2 ∧ L2Inv ls s2 := by
  cases op with
  | updBid px qty ts =>
    have hq : 0 ≤ qty := by simpa [okL2] using hop
    refine ⟨_, rfl, hinv.lot_eq, ?_, ?_⟩
    · intro p hp
      simp only [update_bid_depth] at hp
      by_cases hz : roundQ (qty / s.lot_size) = 0
      · rw [if_pos hz] at hp
        exact hinv.bid_ok p (mem_dErase hp)
      · rw [if_neg hz] at hp
        rcases mem_dInsert hp with hp | hp
        · rw [hp]
          refine one_le_roundQ_of_nonneg_ne_zero ?_ ?_
          · positivity
          · rw [hinv.lot_eq] at hz
            exact hz
        · exact hinv.bid_ok p hp
    · intro p hp
      exact hinv.ask_ok p hp
  | updAsk px qty ts =>
    have hq : 0 ≤ qty := by simpa [okL2] using hop
    refine ⟨_, rfl, hinv.lot_eq, ?_, ?_⟩
    · intro p hp
      exact hinv.bid_ok p hp
    · intro p hp
      simp only [update_ask_depth] at hp
      by_cases hz : roundQ (qty / s.lot_size) = 0
      · rw [if_pos hz] at hp
        exact hinv.ask_ok p (mem_dErase hp)
      · rw [if_neg hz] at hp
        rcases mem_dInsert hp with hp | hp
        · rw [hp]
          refine one_le_roundQ_of_nonneg_ne_zero ?_ ?_
          · positivity
          · rw [hinv.lot_eq] at hz
            exact hz
        · exact hinv.ask_ok p hp
  | clearL2 side upto =>
    refine ⟨_, rfl, ?_⟩
    cases side with
    | Buy =>
      refine ⟨hinv.lot_eq, ?_, hinv.ask_ok⟩
      intro p hp
      simp only [clear_depth_l2] at hp
      by_cases hb : s.best_bid_tick ≠ INVALID_MIN
      · rw [if_pos hb] at hp
        exact hinv.bid_ok p (List.mem_filter.mp hp).1
      · rw [if_neg hb] at hp
        exact hinv.bid_ok p hp
    | Sell =>
      refine ⟨hinv.lot_eq, hinv.bid_ok, ?_⟩
      intro p hp
      simp only [clear_depth_l2] at hp
      by_cases hb : s.best_ask_tick ≠ INVALID_MAX
      · rw [if_pos hb] at hp
        exact hinv.ask_ok p (List.mem_filter.mp hp).1
      · rw [if_neg hb] at hp
        exact hinv.ask_ok p hp
    | Neither =>
      exact ⟨hinv.lot_eq, by simp [clear_depth_l2], by simp [clear_depth_l2]⟩
  | clearL3 side =>
    refine ⟨_, rfl, ?_⟩
    cases side with
    | Buy => exact ⟨hinv.lot_eq, by simp [clear_depth_l3], hinv.ask_ok⟩
    | Sell => exact ⟨hinv.lot_eq, hinv.bid_ok, by simp [clear_depth_l3]⟩
    | Neither =>
      exact ⟨hinv.lot_eq, by simp [clear_depth_l3], by simp [clear_depth_l3]⟩
  | addBuy id px qty ts => simp [okL2] at hop
  | addSell id px qty ts => simp [okL2] at hop
  | delOrder id ts => simp [okL2] at hop
  | modOrder id px qty ts => simp [okL2] at hop
  | applySnap data => simp [okL2] at hop

theorem L2Inv_runOps {ls : ℚ} (hls : 0 < ls) {ops : List Op}
    (hops : ∀ op ∈ ops, okL2 op = true) :
    ∀ {s : BTreeMarketDepth}, L2Inv ls s →
      ∃ s2, runOps s ops = some s2 ∧ L2Inv ls s2 := by
  induction ops with
  | nil => exact fun hinv => ⟨_, rfl, hinv⟩
  | cons op rest ih =>
    intro s hinv
    obtain ⟨s1, hstep, hinv1⟩ :=
      L2Inv_step hls hinv (hops op (List.mem_cons_self _ _))
    obtain ⟨s2, hrun, hinv2⟩ :=
      ih (fun op2 h2 => hops op2 (List.mem_cons_of_mem _ h2)) hinv1
    refine ⟨s2, ?_, hinv2⟩
    simp only [runOps, hstep]
    exact hrun

/-- C4 (amended): along any sequence of L2 updates with non-negative
quantities and `clear_depth` operations from a fresh engine, every
populated tick on either side has an aggregate that rounds to at least
one lot.  (As stated over all operations the claim fails: an L3 add whose
quantity rounds to zero lots, and a same-tick `modify_order` that lowers
the aggregate to round-zero, leave a zero-lot level behind, as the
counterexample shows.) -/
theorem c4_amended_l2_no_zero_lot_levels (tsz ls : ℚ) (hls : 0 < ls)
    (ops : List Op) (hops : ∀ op ∈ ops, okL2 op = true)
    (s : BTreeMarketDepth) (hrun : runOps (new tsz ls) ops = some s) :
    (∀ t q, dLookup t s.bid_depth = some q → 1 ≤ roundQ (q / ls)) ∧
    (∀ t q, dLookup t s.ask_depth = some q → 1 ≤ roundQ (q / ls)) := by
  obtain ⟨s2, hrun2, hinv⟩ := L2Inv_runOps hls hops (L2Inv_new tsz ls)
  rw [hrun] at hrun2
  have he : s = s2 := by injection hrun2
  subst he
  exact ⟨fun t q hq => hinv.bid_ok (t, q) (dLookup_mem hq),
    fun t q hq => hinv.ask_ok (t, q) (dLookup_mem hq)⟩

/-- Witness for C4 (amended) at a concrete input. -/
theorem c4_amended_witness :
    0 < (1 : ℚ) ∧
    (∀ op ∈ ([Op.updBid 10 1 0, Op.updAsk 11 1 0] : List Op),
      okL2 op = true) ∧
    ∃ s, runOps (new 1 1) [Op.updBid 10 1 0, Op.updAsk 11 1 0] = some s ∧
      ((∀ t q, dLookup t s.bid_depth = some q → 1 ≤ roundQ (q / 1)) ∧
       (∀ t q, dLookup t s.ask_depth = some q → 1 ≤ roundQ (q / 1))) := by
  have h0 : 0 < (1 : ℚ) := by norm_num
  have hops : ∀ op ∈ ([Op.updBid 10 1 0, Op.updAsk 11 1 0] : List Op),
      okL2 op = true := by
    intro op hop
    rcases List.mem_cons.mp hop with h | h
    · subst h
      norm_num [okL2]
    · rcases List.mem_singleton.mp h with rfl
      norm_num [okL2]
  cases hx : runOps (new 1 1) [Op.updBid 10 1 0, Op.updAsk 11 1 0] with
  | none =>
    exfalso
    obtain ⟨s2, hrun2, _⟩ := L2Inv_runOps h0 hops (L2Inv_new 1 1)
    rw [hx] at hrun2
    exact Option.noConfusion hrun2
  | some s0 =>
    exact ⟨h0, hops, s0, rfl,
      c4_amended_l2_no_zero_lot_levels 1 1 h0 _ hops s0 hx⟩

/-! ### The L3-only invariant (claims C8 and C9) -/

theorem L3Inv_new (tsz ls : ℚ) : L3Inv ls (new tsz ls) := by
  refine ⟨rfl, by simp [new], by simp [new], by simp [new],
    by simp [new, dKeys], by simp [new, dKeys], ?_, ?_⟩ <;>
      intro t <;> simp [new, sideSum, dLookup]

theorem L3Inv_of_fields {ls : ℚ} {s s2 : BTreeMarketDepth}
    (h : L3Inv ls s) (hlot : s2.lot_size = s.lot_size)
    (hord : s2.orders = s.orders) (hbid : s2.bid_depth = s.bid_depth)
    (hask : s2.ask_depth = s.ask_depth) : L3Inv ls s2 := by
  refine ⟨?_, ?_, ?_, ?_, ?_, ?_, ?_, ?_⟩
  · rw [hlot]
    exact h.lot_eq
  · rw [hord]
    exact h.nd
  · rw [hord]
    exact h.qty_ok
  · rw [hord]
    exact h.sides
  · rw [hbid]
    exact h.bid_sorted
  · rw [hask]
    exact h.ask_sorted
  · rw [hbid, hord]
    exact h.bid_sum
  · rw [hask, hord]
    exact h.ask_sum

theorem inv_qty_nonneg {ls : ℚ} (hls : 0 < ls) {os : List (ℕ × L3Order)}
    (hqok : ∀ p ∈ os, ls / 2 ≤ p.2.qty) : ∀ p ∈ os, 0 ≤ p.2.qty := by
  intro p hp
  have := hqok p hp
  linarith

theorem sideSum_oErase_eq (sd : Side) (t : ℤ) {id : ℕ} {o : L3Order}
    {os : List (ℕ × L3Order)} (h : oLookup id os = some o) :
    sideSum sd t (oErase id os) = sideSum sd t os - contrib sd t o := by
  have := sideSum_oErase sd t h
  linarith

theorem sum_zero_of_lt_half {ls : ℚ} (hls : 0 < ls)
    {os : List (ℕ × L3Order)} (hqok : ∀ p ∈ os, ls / 2 ≤ p.2.qty)
    (sd : Side) (t : ℤ) (hlt : sideSum sd t os < ls / 2) :
    sideSum sd t os = 0 := by
  by_cases hex : ∃ p ∈ os, p.2.side = sd ∧ p.2.price_tick = t
  · obtain ⟨p, hp, hps, hpt⟩ := hex
    have h1 : p.2.qty ≤ sideSum sd t os :=
      contrib_le_sideSum sd t
        (show (p.1, p.2) ∈ os from by rw [Prod.mk.eta]; exact hp) hps hpt
        (inv_qty_nonneg hls hqok)
    have h2 := hqok p hp
    linarith
  · exact sideSum_eq_zero sd t fun p hp hc => hex ⟨p, hp, hc.1, hc.2⟩

theorem bid_level_of_order {ls : ℚ} (hls : 0 < ls) {s : BTreeMarketDepth}
    (hinv : L3Inv ls s) {id : ℕ} {o : L3Order}
    (h : oLookup id s.orders = some o) (hbuy : o.side = Side.Buy) :
    ∃ q0, dLookup o.price_tick s.bid_depth = some q0 ∧
      q0 = sideSum Side.Buy o.price_tick s.orders := by
  have hmem := oLookup_mem h
  have hsum := hinv.bid_sum o.price_tick
  have hge : o.qty ≤ sideSum Side.Buy o.price_tick s.orders :=
    contrib_le_sideSum Side.Buy o.price_tick hmem hbuy rfl
      (inv_qty_nonneg hls hinv.qty_ok)
  have hq2 := hinv.qty_ok _ hmem
  cases hq : dLookup o.price_tick s.bid_depth with
  | none =>
    exfalso
    rw [hq] at hsum
    simp only [Option.getD_none] at hsum
    rw [← hsum] at hge
    linarith
  | some q0 =>
    rw [hq] at hsum
    simp only [Option.getD_some] at hsum
    exact ⟨q0, rfl, hsum⟩

theorem ask_level_of_order {ls : ℚ} (hls : 0 < ls) {s : BTreeMarketDepth}
    (hinv : L3Inv ls s) {id : ℕ} {o : L3Order}
    (h : oLookup id s.orders = some o) (hsell : o.side = Side.Sell) :
    ∃ q0, dLookup o.price_tick s.ask_depth = some q0 ∧
      q0 = sideSum Side.Sell o.price_tick s.orders := by
  have hmem := oLookup_mem h
  have hsum := hinv.ask_sum o.price_tick
  have hge : o.qty ≤ sideSum Side.Sell o.price_tick s.orders :=
    contrib_le_sideSum Side.Sell o.price_tick hmem hsell rfl
      (inv_qty_nonneg hls hinv.qty_ok)
  have hq2 := hinv.qty_ok _ hmem
  cases hq : dLookup o.price_tick s.ask_depth with
  | none =>
    exfalso
    rw [hq] at hsum
    simp only [Option.getD_none] at hsum
    rw [← hsum] at hge
    linarith
  | some q0 =>
    rw [hq] at hsum
    simp only [Option.getD_some] at hsum
    exact ⟨q0, rfl, hsum⟩

theorem L3Inv_add_buy {ls : ℚ} (hls : 0 < ls) {s : BTreeMarketDepth}
    (hinv : L3Inv ls s) (id : ℕ) (px qty : ℚ) (ts : ℤ)
    (hq : 1 ≤ roundQ (qty / ls)) :
    L3Inv ls (add_buy_order s id px qty ts).2 := by
  cases h : oLookup id s.orders with
  | some o =>
    have hst : (add_buy_order s id px qty ts).2 = s := by
      simp [add_buy_order, add, h]
    rw [hst]
    exact hinv
  | none =>
    have hmid : L3Inv ls
        { s with
          orders := (id, (⟨id, Side.Buy, toTick px s.tick_size, qty, ts⟩ :
            L3Order)) :: s.orders,
          bid_depth := dInsert (toTick px s.tick_size)
            ((dLookup (toTick px s.tick_size) s.bid_depth).getD 0 + qty)
            s.bid_depth } := by
      refine ⟨hinv.lot_eq, ?_, ?_, ?_, dInsert_sorted hinv.bid_sorted,
        hinv.ask_sorted, ?_, ?_⟩
      · simp only [List.map_cons, List.nodup_cons]
        exact ⟨oLookup_none_notMem h, hinv.nd⟩
      · intro p hp
        rcases List.mem_cons.mp hp with hp | hp
        · rw [hp]
          exact half_lot_le_of_roundQ hls hq
        · exact hinv.qty_ok p hp
      · intro p hp
        rcases List.mem_cons.mp hp with hp | hp
        · rw [hp]
          exact Or.inl rfl
        · exact hinv.sides p hp
      · intro t
        rw [sideSum_cons, dLookup_dInsert]
        by_cases hteq : t = toTick px s.tick_size
        · subst hteq
          rw [if_pos rfl]
          simp only [Option.getD_some]
          rw [show contrib Side.Buy (toTick px s.tick_size)
              (⟨id, Side.Buy, toTick px s.tick_size, qty, ts⟩ : L3Order) =
              qty from by
            rw [contrib, if_pos ⟨rfl, rfl⟩]]
          rw [hinv.bid_sum (toTick px s.tick_size)]
          ring
        · rw [if_neg hteq]
          rw [show contrib Side.Buy t
              (⟨id, Side.Buy, toTick px s.tick_size, qty, ts⟩ : L3Order) =
              0 from by
            rw [contrib, if_neg fun hc => hteq hc.2.symm]]
          rw [hinv.bid_sum t]
          ring
      · intro t
        rw [sideSum_cons]
        rw [show contrib Side.Sell t
            (⟨id, Side.Buy, toTick px s.tick_size, qty, ts⟩ : L3Order) =
            0 from by
          rw [contrib, if_neg fun hc => Side.noConfusion hc.1]]
        rw [zero_add]
        exact hinv.ask_sum t
    have hadd : add s (⟨id, Side.Buy, toTick px s.tick_size, qty, ts⟩ :
        L3Order) = .ok
        { s with
          orders := (id, (⟨id, Side.Buy, toTick px s.tick_size, qty, ts⟩ :
            L3Order)) :: s.orders,
          bid_depth := dInsert (toTick px s.tick_size)
            ((dLookup (toTick px s.tick_size) s.bid_depth).getD 0 + qty)
            s.bid_depth } := by
      simp [add, h]
    simp only [add_buy_order, hadd]
    split
    · exact L3Inv_of_fields hmid rfl rfl rfl rfl
    · exact hmid

theorem L3Inv_add_sell {ls : ℚ} (hls : 0 < ls) {s : BTreeMarketDepth}
    (hinv : L3Inv ls s) (id : ℕ) (px qty : ℚ) (ts : ℤ)
    (hq : 1 ≤ roundQ (qty / ls)) :
    L3Inv ls (add_sell_order s id px qty ts).2 := by
  cases h : oLookup id s.orders with
  | some o =>
    have hst : (add_sell_order s id px qty ts).2 = s := by
      simp [add_sell_order, add, h]
    rw [hst]
    exact hinv
  | none =>
    have hmid : L3Inv ls
        { s with
          orders := (id, (⟨id, Side.Sell, toTick px s.tick_size, qty, ts⟩ :
            L3Order)) :: s.orders,
          ask_depth := dInsert (toTick px s.tick_size)
            ((dLookup (toTick px s.tick_size) s.ask_depth).getD 0 + qty)
            s.ask_depth } := by
      refine ⟨hinv.lot_eq, ?_, ?_, ?_, hinv.bid_sorted,
        dInsert_sorted hinv.ask_sorted, ?_, ?_⟩
      · simp only [List.map_cons, List.nodup_cons]
        exact ⟨oLookup_none_notMem h, hinv.nd⟩
      · intro p hp
        rcases List.mem_cons.mp hp with hp | hp
        · rw [hp]
          exact half_lot_le_of_roundQ hls hq
        · exact hinv.qty_ok p hp
      · intro p hp
        rcases List.mem_cons.mp hp with hp | hp
        · rw [hp]
          exact Or.inr rfl
        · exact hinv.sides p hp
      · intro t
        rw [sideSum_cons]
        rw [show contrib Side.Buy t
            (⟨id, Side.Sell, toTick px s.tick_size, qty, ts⟩ : L3Order) =
            0 from by
          rw [contrib, if_neg fun hc => Side.noConfusion hc.1]]
        rw [zero_add]
        exact hinv.bid_sum t
      · intro t
        rw [sideSum_cons, dLookup_dInsert]
        by_cases hteq : t = toTick px s.tick_size
        · subst hteq
          rw [if_pos rfl]
          simp only [Option.getD_some]
          rw [show contrib Side.Sell (toTick px s.tick_size)
              (⟨id, Side.Sell, toTick px s.tick_size, qty, ts⟩ : L3Order) =
              qty from by
            rw [contrib, if_pos ⟨rfl, rfl⟩]]
          rw [hinv.ask_sum (toTick px s.tick_size)]
          ring
        · rw [if_neg hteq]
          rw [show contrib Side.Sell t
              (⟨id, Side.Sell, toTick px s.tick_size, qty, ts⟩ : L3Order) =
              0 from by
            rw [contrib, if_neg fun hc => hteq hc.2.symm]]
          rw [hinv.ask_sum t]
          ring
    have hadd : add s (⟨id, Side.Sell, toTick px s.tick_size, qty, ts⟩ :
        L3Order) = .ok
        { s with
          orders := (id, (⟨id, Side.Sell, toTick px s.tick_size, qty, ts⟩ :
            L3Order)) :: s.orders,
          ask_depth := dInsert (toTick px s.tick_size)
            ((dLookup (toTick px s.tick_size) s.ask_depth).getD 0 + qty)
            s.ask_depth } := by
      simp [add, h]
    simp only [add_sell_order, hadd]
    split
    · exact L3Inv_of_fields hmid rfl rfl rfl rfl
    · exact hmid

theorem L3Inv_delete {ls : ℚ} (hls : 0 < ls) {s : BTreeMarketDepth}
    (hinv : L3Inv ls s) (id : ℕ) (ts : ℤ) :
    ∃ s2, (delete_order s id ts).map Prod.snd = some s2 ∧ L3Inv ls s2 := by
  cases h : oLookup id s.orders with
  | none =>
    refine ⟨s, ?_, hinv⟩
    simp [delete_order, h]
  | some o =>
    have hmem := oLookup_mem h
    have hnd2 := oErase_nodup id hinv.nd
    have hq_er : ∀ p ∈ oErase id s.orders, ls / 2 ≤ p.2.qty :=
      fun p hp => hinv.qty_ok p (mem_oErase hp)
    rcases (show o.side = Side.Buy ∨ o.side = Side.Sell from
      hinv.sides _ hmem) with hbuy | hsell
    · obtain ⟨q0, hq0, hq0v⟩ := bid_level_of_order hls hinv h hbuy
      have hrest : sideSum Side.Buy o.price_tick (oErase id s.orders) =
          q0 - o.qty := by
        rw [sideSum_oErase_eq Side.Buy o.price_tick h,
          show contrib Side.Buy o.price_tick o = o.qty from by
            rw [contrib, if_pos ⟨hbuy, rfl⟩], ← hq0v]
      by_cases hz : roundQ ((q0 - o.qty) / s.lot_size) = 0
      · have hdel : (delete_order s id ts).map Prod.snd = some
            { s with orders := oErase id s.orders,
                     bid_depth := dErase o.price_tick s.bid_depth,
                     best_bid_tick :=
                       if o.price_tick = s.best_bid_tick then
                         (firstKey (dErase o.price_tick s.bid_depth)).getD
                           INVALID_MIN
                       else s.best_bid_tick } := by
          simp [delete_order, h, hbuy, hq0, hz]
        refine ⟨_, hdel, hinv.lot_eq, hnd2,
          fun p hp => hinv.qty_ok p (mem_oErase hp),
          fun p hp => hinv.sides p (mem_oErase hp),
          dErase_sorted hinv.bid_sorted, hinv.ask_sorted, ?_, ?_⟩
        · intro t
          by_cases hteq : t = o.price_tick
          · have hlt : q0 - o.qty < ls / 2 :=
              lt_half_lot_of_roundQ_zero hls (by rwa [hinv.lot_eq] at hz)
            have hzero : sideSum Side.Buy o.price_tick (oErase id s.orders)
                = 0 :=
              sum_zero_of_lt_half hls hq_er Side.Buy o.price_tick
                (by rw [hrest]; exact hlt)
            rw [hteq, dLookup_dErase_self (sorted_nodup hinv.bid_sorted),
              hzero]
            simp
          · rw [dLookup_dErase_ne hteq, hinv.bid_sum t,
              sideSum_oErase_eq Side.Buy t h,
              show contrib Side.Buy t o = 0 from by
                rw [contrib, if_neg fun hc => hteq hc.2.symm]]
            ring
        · intro t
          rw [sideSum_oErase_eq Side.Sell t h,
            show contrib Side.Sell t o = 0 from by
              rw [contrib, if_neg fun hc =>
                Side.noConfusion (hbuy.symm.trans hc.1)]]
          rw [sub_zero]
          exact hinv.ask_sum t
      · have hdel : (delete_order s id ts).map Prod.snd = some
            { s with orders := oErase id s.orders,
                     bid_depth := dInsert o.price_tick (q0 - o.qty)
                       s.bid_depth } := by
          simp [delete_order, h, hbuy, hq0, hz]
        refine ⟨_, hdel, hinv.lot_eq, hnd2,
          fun p hp => hinv.qty_ok p (mem_oErase hp),
          fun p hp => hinv.sides p (mem_oErase hp),
          dInsert_sorted hinv.bid_sorted, hinv.ask_sorted, ?_, ?_⟩
        · intro t
          rw [dLookup_dInsert]
          by_cases hteq : t = o.price_tick
          · rw [if_pos hteq, hteq, hrest]
            simp
          · rw [if_neg hteq, hinv.bid_sum t, sideSum_oErase_eq Side.Buy t h,
              show contrib Side.Buy t o = 0 from by
                rw [contrib, if_neg fun hc => hteq hc.2.symm]]
            ring
        · intro t
          rw [sideSum_oErase_eq Side.Sell t h,
            show contrib Side.Sell t o = 0 from by
              rw [contrib, if_neg fun hc =>
                Side.noConfusion (hbuy.symm.trans hc.1)]]
          rw [sub_zero]
          exact hinv.ask_sum t
    · obtain ⟨q0, hq0, hq0v⟩ := ask_level_of_order hls hinv h hsell
      have hnb : ¬o.side = Side.Buy := by
        rw [hsell]
        exact fun hc => Side.noConfusion hc
      have hrest : sideSum Side.Sell o.price_tick (oErase id s.orders) =
          q0 - o.qty := by
        rw [sideSum_oErase_eq Side.Sell o.price_tick h,
          show contrib Side.Sell o.price_tick o = o.qty from by
            rw [contrib, if_pos ⟨hsell, rfl⟩], ← hq0v]
      by_cases hz : roundQ ((q0 - o.qty) / s.lot_size) = 0
      · have hdel : (delete_order s id ts).map Prod.snd = some
            { s with orders := oErase id s.orders,
                     ask_depth := dErase o.price_tick s.ask_depth,
                     best_ask_tick :=
                       if o.price_tick = s.best_ask_tick then
                         (firstKey (dErase o.price_tick s.ask_depth)).getD
                           INVALID_MAX
                       else s.best_ask_tick } := by
          simp [delete_order, h, hnb, hq0, hz]
        refine ⟨_, hdel, hinv.lot_eq, hnd2,
          fun p hp => hinv.qty_ok p (mem_oErase hp),
          fun p hp => hinv.sides p (mem_oErase hp),
          hinv.bid_sorted, dErase_sorted hinv.ask_sorted, ?_, ?_⟩
        · intro t
          rw [sideSum_oErase_eq Side.Buy t h,
            show contrib Side.Buy t o = 0 from by
              rw [contrib, if_neg fun hc =>
                Side.noConfusion (hsell.symm.trans hc.1)]]
          rw [sub_zero]
          exact hinv.bid_sum t
        · intro t
          by_cases hteq : t = o.price_tick
          · have hlt : q0 - o.qty < ls / 2 :=
              lt_half_lot_of_roundQ_zero hls (by rwa [hinv.lot_eq] at hz)
            have hzero : sideSum Side.Sell o.price_tick (oErase id s.orders)
                = 0 :=
              sum_zero_of_lt_half hls hq_er Side.Sell o.price_tick
                (by rw [hrest]; exact hlt)
            rw [hteq, dLookup_dErase_self (sorted_nodup hinv.ask_sorted),
              hzero]
            simp
          · rw [dLookup_dErase_ne hteq, hinv.ask_sum t,
              sideSum_oErase_eq Side.Sell t h,
              show contrib Side.Sell t o = 0 from by
                rw [contrib, if_neg fun hc => hteq hc.2.symm]]
            ring
      · have hdel : (delete_order s id ts).map Prod.snd = some
            { s with orders := oErase id s.orders,
                     ask_depth := dInsert o.price_tick (q0 - o.qty)
                       s.ask_depth } := by
          simp [delete_order, h, hnb, hq0, hz]
        refine ⟨_, hdel, hinv.lot_eq, hnd2,
          fun p hp => hinv.qty_ok p (mem_oErase hp),
          fun p hp => hinv.sides p (mem_oErase hp),
          hinv.bid_sorted, dInsert_sorted hinv.ask_sorted, ?_, ?_⟩
        · intro t
          rw [sideSum_oErase_eq Side.Buy t h,
            show contrib Side.Buy t o = 0 from by
              rw [contrib, if_neg fun hc =>
                Side.noConfusion (hsell.symm.trans hc.1)]]
          rw [sub_zero]
          exact hinv.bid_sum t
        · intro t
          rw [dLookup_dInsert]
          by_cases hteq : t = o.price_tick
          · rw [if_pos hteq, hteq, hrest]
            simp
          · rw [if_neg hteq, hinv.ask_sum t, sideSum_oErase_eq Side.Sell t h,
              show contrib Side.Sell t o = 0 from by
                rw [contrib, if_neg fun hc => hteq hc.2.symm]]
            ring

theorem L3Inv_move_buy {ls : ℚ} (hls : 0 < ls) {s : BTreeMarketDepth}
    (hinv : L3Inv ls s) {id : ℕ} {o : L3Order}
    (h : oLookup id s.orders = some o) (hbuy : o.side = Side.Buy)
    {newt : ℤ} (hne : newt ≠ o.price_tick) {qty : ℚ}
    (hq : 1 ≤ roundQ (qty / ls)) (ts2 : ℤ) {bid1 : DepthMap}
    (hsort1 : (dKeys bid1).Sorted (· < ·))
    (hchar : ∀ t, (dLookup t bid1).getD 0 =
      sideSum Side.Buy t (oErase id s.orders)) :
    L3Inv ls
      { s with
        orders := oUpdate id (⟨o.order_id, Side.Buy, newt, qty, ts2⟩ :
          L3Order) s.orders,
        bid_depth := dInsert newt ((dLookup newt bid1).getD 0 + qty)
          bid1 } := by
  refine ⟨hinv.lot_eq, ?_, ?_, ?_, dInsert_sorted hsort1, hinv.ask_sorted,
    ?_, ?_⟩
  · rw [oUpdate_keys]
    exact hinv.nd
  · intro p hp
    rcases mem_oUpdate hp with hp2 | hp2
    · rw [hp2]
      exact half_lot_le_of_roundQ hls hq
    · exact hinv.qty_ok p hp2
  · intro p hp
    rcases mem_oUpdate hp with hp2 | hp2
    · rw [hp2]
      exact Or.inl rfl
    · exact hinv.sides p hp2
  · intro t
    have hupd := sideSum_oUpdate Side.Buy t
      (⟨o.order_id, Side.Buy, newt, qty, ts2⟩ : L3Order) h hinv.nd
    have hsplit := sideSum_oErase Side.Buy t h
    rw [dLookup_dInsert]
    by_cases hteq : t = newt
    · subst hteq
      rw [if_pos rfl]
      simp only [Option.getD_some]
      have hco : contrib Side.Buy t o = 0 := by
        rw [contrib, if_neg fun hc => hne hc.2.symm]
      have hcn : contrib Side.Buy t
          (⟨o.order_id, Side.Buy, t, qty, ts2⟩ : L3Order) = qty := by
        rw [contrib, if_pos ⟨rfl, rfl⟩]
      rw [hupd, hco, hcn, hchar t]
      rw [hco] at hsplit
      linarith
    · rw [if_neg hteq]
      have hcn : contrib Side.Buy t
          (⟨o.order_id, Side.Buy, newt, qty, ts2⟩ : L3Order) = 0 := by
        rw [contrib, if_neg fun hc => hteq hc.2.symm]
      rw [hchar t, hupd, hcn]
      linarith
  · intro t
    have hupd := sideSum_oUpdate Side.Sell t
      (⟨o.order_id, Side.Buy, newt, qty, ts2⟩ : L3Order) h hinv.nd
    have hco : contrib Side.Sell t o = 0 := by
      rw [contrib, if_neg fun hc => Side.noConfusion (hbuy.symm.trans hc.1)]
    have hcn : contrib Side.Sell t
        (⟨o.order_id, Side.Buy, newt, qty, ts2⟩ : L3Order) = 0 := by
      rw [contrib, if_neg fun hc => Side.noConfusion hc.1]
    rw [hupd, hco, hcn, hinv.ask_sum t]
    ring

theorem L3Inv_move_sell {ls : ℚ} (hls : 0 < ls) {s : BTreeMarketDepth}
    (hinv : L3Inv ls s) {id : ℕ} {o : L3Order}
    (h : oLookup id s.orders = some o) (hsell : o.side = Side.Sell)
    {newt : ℤ} (hne : newt ≠ o.price_tick) {qty : ℚ}
    (hq : 1 ≤ roundQ (qty / ls)) (ts2 : ℤ) {ask1 : DepthMap}
    (hsort1 : (dKeys ask1).Sorted (· < ·))
    (hchar : ∀ t, (dLookup t ask1).getD 0 =
      sideSum Side.Sell t (oErase id s.orders)) :
    L3Inv ls
      { s with
        orders := oUpdate id (⟨o.order_id, Side.Sell, newt, qty, ts2⟩ :
          L3Order) s.orders,
        ask_depth := dInsert newt ((dLookup newt ask1).getD 0 + qty)
          ask1 } := by
  refine ⟨hinv.lot_eq, ?_, ?_, ?_, hinv.bid_sorted, dInsert_sorted hsort1,
    ?_, ?_⟩
  · rw [oUpdate_keys]
    exact hinv.nd
  · intro p hp
    rcases mem_oUpdate hp with hp2 | hp2
    · rw [hp2]
      exact half_lot_le_of_roundQ hls hq
    · exact hinv.qty_ok p hp2
  · intro p hp
    rcases mem_oUpdate hp with hp2 | hp2
    · rw [hp2]
      exact Or.inr rfl
    · exact hinv.sides p hp2
  · intro t
    have hupd := sideSum_oUpdate Side.Buy t
      (⟨o.order_id, Side.Sell, newt, qty, ts2⟩ : L3Order) h hinv.nd
    have hco : contrib Side.Buy t o = 0 := by
      rw [contrib, if_neg fun hc => Side.noConfusion (hsell.symm.trans hc.1)]
    have hcn : contrib Side.Buy t
        (⟨o.order_id, Side.Sell, newt, qty, ts2⟩ : L3Order) = 0 := by
      rw [contrib, if_neg fun hc => Side.noConfusion hc.1]
    rw [hupd, hco, hcn, hinv.bid_sum t]
    ring
  · intro t
    have hupd := sideSum_oUpdate Side.Sell t
      (⟨o.order_id, Side.Sell, newt, qty, ts2⟩ : L3Order) h hinv.nd
    have hsplit := sideSum_oErase Side.Sell t h
    rw [dLookup_dInsert]
    by_cases hteq : t = newt
    · subst hteq
      rw [if_pos rfl]
      simp only [Option.getD_some]
      have hco : contrib Side.Sell t o = 0 := by
        rw [contrib, if_neg fun hc => hne hc.2.symm]
      have hcn : contrib Side.Sell t
          (⟨o.order_id, Side.Sell, t, qty, ts2⟩ : L3Order) = qty := by
        rw [contrib, if_pos ⟨rfl, rfl⟩]
      rw [hupd, hco, hcn, hchar t]
      rw [hco] at hsplit
      linarith
    · rw [if_neg hteq]
      have hcn : contrib Side.Sell t
          (⟨o.order_id, Side.Sell, newt, qty, ts2⟩ : L3Order) = 0 := by
        rw [contrib, if_neg fun hc => hteq hc.2.symm]
      rw [hchar t, hupd, hcn]
      linarith

theorem L3Inv_same_buy {ls : ℚ} (hls : 0 < ls) {s : BTreeMarketDepth}
    (hinv : L3Inv ls s) {id : ℕ} {o : L3Order}
    (h : oLookup id s.orders = some o) (hbuy : o.side = Side.Buy)
    {qty q0 : ℚ} (hq : 1 ≤ roundQ (qty / ls))
    (hq0 : dLookup o.price_tick s.bid_depth = some q0) :
    L3Inv ls
      { s with
        orders := oUpdate id (⟨o.order_id, Side.Buy, o.price_tick, qty,
          o.timestamp⟩ : L3Order) s.orders,
        bid_depth := dInsert o.price_tick (q0 + (qty - o.qty))
          s.bid_depth } := by
  have hq0v : q0 = sideSum Side.Buy o.price_tick s.orders := by
    have hb := hinv.bid_sum o.price_tick
    rw [hq0] at hb
    simpa using hb
  refine ⟨hinv.lot_eq, ?_, ?_, ?_, dInsert_sorted hinv.bid_sorted,
    hinv.ask_sorted, ?_, ?_⟩
  · rw [oUpdate_keys]
    exact hinv.nd
  · intro p hp
    rcases mem_oUpdate hp with hp2 | hp2
    · rw [hp2]
      exact half_lot_le_of_roundQ hls hq
    · exact hinv.qty_ok p hp2
  · intro p hp
    rcases mem_oUpdate hp with hp2 | hp2
    · rw [hp2]
      exact Or.inl rfl
    · exact hinv.sides p hp2
  · intro t
    have hupd := sideSum_oUpdate Side.Buy t
      (⟨o.order_id, Side.Buy, o.price_tick, qty, o.timestamp⟩ :
        L3Order) h hinv.nd
    rw [dLookup_dInsert, hupd]
    by_cases hteq : t = o.price_tick
    · rw [if_pos hteq]
      simp only [Option.getD_some]
      have hco : contrib Side.Buy t o = o.qty := by
        rw [contrib, if_pos ⟨hbuy, hteq.symm⟩]
      have hcn : contrib Side.Buy t
          (⟨o.order_id, Side.Buy, o.price_tick, qty, o.timestamp⟩ :
            L3Order) = qty := by
        rw [contrib, if_pos ⟨rfl, hteq.symm⟩]
      rw [hco, hcn, hteq, ← hq0v]
      ring
    · rw [if_neg hteq]
      have hco : contrib Side.Buy t o = 0 := by
        rw [contrib, if_neg fun hc => hteq hc.2.symm]
      have hcn : contrib Side.Buy t
          (⟨o.order_id, Side.Buy, o.price_tick, qty, o.timestamp⟩ :
            L3Order) = 0 := by
        rw [contrib, if_neg fun hc => hteq hc.2.symm]
      rw [hco, hcn, hinv.bid_sum t]
      ring
  · intro t
    have hupd := sideSum_oUpdate Side.Sell t
      (⟨o.order_id, Side.Buy, o.price_tick, qty, o.timestamp⟩ :
        L3Order) h hinv.nd
    have hco : contrib Side.Sell t o = 0 := by
      rw [contrib, if_neg fun hc => Side.noConfusion (hbuy.symm.trans hc.1)]
    have hcn : contrib Side.Sell t
        (⟨o.order_id, Side.Buy, o.price_tick, qty, o.timestamp⟩ :
          L3Order) = 0 := by
      rw [contrib, if_neg fun hc => Side.noConfusion hc.1]
    rw [hupd, hco, hcn, hinv.ask_sum t]
    ring

theorem L3Inv_same_sell {ls : ℚ} (hls : 0 < ls) {s : BTreeMarketDepth}
    (hinv : L3Inv ls s) {id : ℕ} {o : L3Order}
    (h : oLookup id s.orders = some o) (hsell : o.side = Side.Sell)
    {qty q0 : ℚ} (hq : 1 ≤ roundQ (qty / ls))
    (hq0 : dLookup o.price_tick s.ask_depth = some q0) :
    L3Inv ls
      { s with
        orders := oUpdate id (⟨o.order_id, Side.Sell, o.price_tick, qty,
          o.timestamp⟩ : L3Order) s.orders,
        ask_depth := dInsert o.price_tick (q0 + (qty - o.qty))
          s.ask_depth } := by
  have hq0v : q0 = sideSum Side.Sell o.price_tick s.orders := by
    have hb := hinv.ask_sum o.price_tick
    rw [hq0] at hb
    simpa using hb
  refine ⟨hinv.lot_eq, ?_, ?_, ?_, hinv.bid_sorted,
    dInsert_sorted hinv.ask_sorted, ?_, ?_⟩
  · rw [oUpdate_keys]
    exact hinv.nd
  · intro p hp
    rcases mem_oUpdate hp with hp2 | hp2
    · rw [hp2]
      exact half_lot_le_of_roundQ hls hq
    · exact hinv.qty_ok p hp2
  · intro p hp
    rcases mem_oUpdate hp with hp2 | hp2
    · rw [hp2]
      exact Or.inr rfl
    · exact hinv.sides p hp2
  · intro t
    have hupd := sideSum_oUpdate Side.Buy t
      (⟨o.order_id, Side.Sell, o.price_tick, qty, o.timestamp⟩ :
        L3Order) h hinv.nd
    have hco : contrib Side.Buy t o = 0 := by
      rw [contrib, if_neg fun hc => Side.noConfusion (hsell.symm.trans hc.1)]
    have hcn : contrib Side.Buy t
        (⟨o.order_id, Side.Sell, o.price_tick, qty, o.timestamp⟩ :
          L3Order) = 0 := by
      rw [contrib, if_neg fun hc => Side.noConfusion hc.1]
    rw [hupd, hco, hcn, hinv.bid_sum t]
    ring
  · intro t
    have hupd := sideSum_oUpdate Side.Sell t
      (⟨o.order_id, Side.Sell, o.price_tick, qty, o.timestamp⟩ :
        L3Order) h hinv.nd
    rw [dLookup_dInsert, hupd]
    by_cases hteq : t = o.price_tick
    · rw [if_pos hteq]
      simp only [Option.getD_some]
      have hco : contrib Side.Sell t o = o.qty := by
        rw [contrib, if_pos ⟨hsell, hteq.symm⟩]
      have hcn : contrib Side.Sell t
          (⟨o.order_id, Side.Sell, o.price_tick, qty, o.timestamp⟩ :
            L3Order) = qty := by
        rw [contrib, if_pos ⟨rfl, hteq.symm⟩]
      rw [hco, hcn, hteq, ← hq0v]
      ring
    · rw [if_neg hteq]
      have hco : contrib Side.Sell t o = 0 := by
        rw [contrib, if_neg fun hc => hteq hc.2.symm]
      have hcn : contrib Side.Sell t
          (⟨o.order_id, Side.Sell, o.price_tick, qty, o.timestamp⟩ :
            L3Order) = 0 := by
        rw [contrib, if_neg fun hc => hteq hc.2.symm]
      rw [hco, hcn, hinv.ask_sum t]
      ring

theorem L3Inv_modify {ls : ℚ} (hls : 0 < ls) {s : BTreeMarketDepth}
    (hinv : L3Inv ls s) (id : ℕ) (px qty : ℚ) (ts : ℤ)
    (hq : 1 ≤ roundQ (qty / ls)) :
    ∃ s2, (modify_order s id px qty ts).map Prod.snd = some s2 ∧
      L3Inv ls s2 := by
  cases h : oLookup id s.orders with
  | none =>
    refine ⟨s, ?_, hinv⟩
    simp [modify_order, h]
  | some o =>
    rcases (show o.side = Side.Buy ∨ o.side = Side.Sell from
      hinv.sides _ (oLookup_mem h)) with hbuy | hsell
    · obtain ⟨q0, hq0, hq0v⟩ := bid_level_of_order hls hinv h hbuy
      have hrest : sideSum Side.Buy o.price_tick (oErase id s.orders) =
          q0 - o.qty := by
        rw [sideSum_oErase_eq Side.Buy o.price_tick h,
          show contrib Side.Buy o.price_tick o = o.qty from by
            rw [contrib, if_pos ⟨hbuy, rfl⟩], ← hq0v]
      by_cases hne : toTick px s.tick_size = o.price_tick
      · simp [modify_order, h, hbuy, hne, hq0]
        exact L3Inv_of_fields (L3Inv_same_buy hls hinv h hbuy hq hq0)
          rfl rfl rfl rfl
      · by_cases hz : roundQ ((q0 - o.qty) / s.lot_size) = 0
        · have hchar : ∀ t,
              (dLookup t (dErase o.price_tick s.bid_depth)).getD 0 =
                sideSum Side.Buy t (oErase id s.orders) := by
            intro t
            by_cases hteq : t = o.price_tick
            · rw [hteq, dLookup_dErase_self (sorted_nodup hinv.bid_sorted)]
              have hlt : q0 - o.qty < ls / 2 :=
                lt_half_lot_of_roundQ_zero hls (by rwa [hinv.lot_eq] at hz)
              have hzero : sideSum Side.Buy o.price_tick
                  (oErase id s.orders) = 0 :=
                sum_zero_of_lt_half hls
                  (fun p hp => hinv.qty_ok p (mem_oErase hp))
                  Side.Buy o.price_tick (by rw [hrest]; exact hlt)
              rw [hzero]
              simp
            · rw [dLookup_dErase_ne hteq, hinv.bid_sum t,
                sideSum_oErase_eq Side.Buy t h,
                show contrib Side.Buy t o = 0 from by
                  rw [contrib, if_neg fun hc => hteq hc.2.symm]]
              ring
          simp [modify_order, h, hbuy, hne, hq0, hz]
          exact L3Inv_of_fields
            (L3Inv_move_buy hls hinv h hbuy hne hq ts
              (dErase_sorted hinv.bid_sorted) hchar) rfl rfl rfl rfl
        · have hchar : ∀ t,
              (dLookup t (dInsert o.price_tick (q0 - o.qty)
                s.bid_depth)).getD 0 =
                sideSum Side.Buy t (oErase id s.orders) := by
            intro t
            rw [dLookup_dInsert]
            by_cases hteq : t = o.price_tick
            · rw [if_pos hteq, hteq, hrest]
              simp
            · rw [if_neg hteq, hinv.bid_sum t,
                sideSum_oErase_eq Side.Buy t h,
                show contrib Side.Buy t o = 0 from by
                  rw [contrib, if_neg fun hc => hteq hc.2.symm]]
              ring
          simp [modify_order, h, hbuy, hne, hq0, hz]
          exact L3Inv_of_fields
            (L3Inv_move_buy hls hinv h hbuy hne hq ts
              (dInsert_sorted hinv.bid_sorted) hchar) rfl rfl rfl rfl
    · obtain ⟨q0, hq0, hq0v⟩ := ask_level_of_order hls hinv h hsell
      have hnb : ¬o.side = Side.Buy := by
        rw [hsell]
        exact fun hc => Side.noConfusion hc
      have hrest : sideSum Side.Sell o.price_tick (oErase id s.orders) =
          q0 - o.qty := by
        rw [sideSum_oErase_eq Side.Sell o.price_tick h,
          show contrib Side.Sell o.price_tick o = o.qty from by
            rw [contrib, if_pos ⟨hsell, rfl⟩], ← hq0v]
      by_cases hne : toTick px s.tick_size = o.price_tick
      · simp [modify_order, h, hsell, hnb, hne, hq0]
        exact L3Inv_of_fields (L3Inv_same_sell hls hinv h hsell hq hq0)
          rfl rfl rfl rfl
      · by_cases hz : roundQ ((q0 - o.qty) / s.lot_size) = 0
        · have hchar : ∀ t,
              (dLookup t (dErase o.price_tick s.ask_depth)).getD 0 =
                sideSum Side.Sell t (oErase id s.orders) := by
            intro t
            by_cases hteq : t = o.price_tick
            · rw [hteq, dLookup_dErase_self (sorted_nodup hinv.ask_sorted)]
              have hlt : q0 - o.qty < ls / 2 :=
                lt_half_lot_of_roundQ_zero hls (by rwa [hinv.lot_eq] at hz)
              have hzero : sideSum Side.Sell o.price_tick
                  (oErase id s.orders) = 0 :=
                sum_zero_of_lt_half hls
                  (fun p hp => hinv.qty_ok p (mem_oErase hp))
                  Side.Sell o.price_tick (by rw [hrest]; exact hlt)
              rw [hzero]
              simp
            · rw [dLookup_dErase_ne hteq, hinv.ask_sum t,
                sideSum_oErase_eq Side.Sell t h,
                show contrib Side.Sell t o = 0 from by
                  rw [contrib, if_neg fun hc => hteq hc.2.symm]]
              ring
          simp [modify_order, h, hsell, hnb, hne, hq0, hz]
          exact L3Inv_of_fields
            (L3Inv_move_sell hls hinv h hsell hne hq ts
              (dErase_sorted hinv.ask_sorted) hchar) rfl rfl rfl rfl
        · have hchar : ∀ t,
              (dLookup t (dInsert o.price_tick (q0 - o.qty)
                s.ask_depth)).getD 0 =
                sideSum Side.Sell t (oErase id s.orders) := by
            intro t
            rw [dLookup_dInsert]
            by_cases hteq : t = o.price_tick
            · rw [if_pos hteq, hteq, hrest]
              simp
            · rw [if_neg hteq, hinv.ask_sum t,
                sideSum_oErase_eq Side.Sell t h,
                show contrib Side.Sell t o = 0 from by
                  rw [contrib, if_neg fun hc => hteq hc.2.symm]]
              ring
          simp [modify_order, h, hsell, hnb, hne, hq0, hz]
          exact L3Inv_of_fields
            (L3Inv_move_sell hls hinv h hsell hne hq ts
              (dInsert_sorted hinv.ask_sorted) hchar) rfl rfl rfl rfl

theorem L3Inv_step {ls : ℚ} (hls : 0 < ls) {s : BTreeMarketDepth} {op : Op}
    (hinv : L3Inv ls s) (hop : okL3 ls op = true) :
    ∃ s2, step s op = some s2 ∧ L3Inv ls s2 := by
  cases op with
  | addBuy id px qty ts =>
    have hq : 1 ≤ roundQ (qty / ls) := by simpa [okL3] using hop
    exact ⟨_, rfl, L3Inv_add_buy hls hinv id px qty ts hq⟩
  | addSell id px qty ts =>
    have hq : 1 ≤ roundQ (qty / ls) := by simpa [okL3] using hop
    exact ⟨_, rfl, L3Inv_add_sell hls hinv id px qty ts hq⟩
  | delOrder id ts => exact L3Inv_delete hls hinv id ts
  | modOrder id px qty ts =>
    have hq : 1 ≤ roundQ (qty / ls) := by simpa [okL3] using hop
    exact L3Inv_modify hls hinv id px qty ts hq
  | updBid px qty ts => simp [okL3] at hop
  | updAsk px qty ts => simp [okL3] at hop
  | clearL2 side upto => simp [okL3] at hop
  | clearL3 side => simp [okL3] at hop
  | applySnap data => simp [okL3] at hop

theorem L3Inv_runOps {ls : ℚ} (hls : 0 < ls) {ops : List Op}
    (hops : ∀ op ∈ ops, okL3 ls op = true) :
    ∀ {s : BTreeMarketDepth}, L3Inv ls s →
      ∃ s2, runOps s ops = some s2 ∧ L3Inv ls s2 := by
  induction ops with
  | nil => exact fun hinv => ⟨_, rfl, hinv⟩
  | cons op rest ih =>
    intro s hinv
    obtain ⟨s1, hstep, hinv1⟩ :=
      L3Inv_step hls hinv (hops op (List.mem_cons_self _ _))
    obtain ⟨s2, hrun, hinv2⟩ :=
      ih (fun op2 h2 => hops op2 (List.mem_cons_of_mem _ h2)) hinv1
    refine ⟨s2, ?_, hinv2⟩
    simp only [runOps, hstep]
    exact hrun

/-! ### Claim C8 (amended) -/

/-- C8 (amended): from a fresh engine, using only the L3 mutators
(`add_buy_order`, `add_sell_order`, `delete_order`, `modify_order`) with
every quantity rounding to at least one lot, each side's aggregate at
every tick equals the sum of the quantities of that side's resting orders
at that tick, an absent level counting as 0.  (Without the quantity
proviso the claim fails; see the counterexample.) -/
theorem c8_amended_l3_sum_matches_depth (tsz ls : ℚ) (hls : 0 < ls)
    (ops : List Op) (hops : ∀ op ∈ ops, okL3 ls op = true)
    (s : BTreeMarketDepth) (hrun : runOps (new tsz ls) ops = some s) :
    ∀ t, (dLookup t s.bid_depth).getD 0 = sideSum Side.Buy t s.orders ∧
      (dLookup t s.ask_depth).getD 0 = sideSum Side.Sell t s.orders := by
  obtain ⟨s2, hrun2, hinv⟩ := L3Inv_runOps hls hops (L3Inv_new tsz ls)
  rw [hrun] at hrun2
  have he : s = s2 := by injection hrun2
  subst he
  exact fun t => ⟨hinv.bid_sum t, hinv.ask_sum t⟩

/-- Witness for C8 (amended) on a concrete run. -/
theorem c8_amended_witness :
    0 < (1 : ℚ) ∧
    (∀ op ∈ ([Op.addBuy 1 10 1 0, Op.addSell 2 20 1 0, Op.delOrder 1 0] :
      List Op), okL3 1 op = true) ∧
    ∃ s, runOps (new 1 1)
        [Op.addBuy 1 10 1 0, Op.addSell 2 20 1 0, Op.delOrder 1 0] =
        some s ∧
      ∀ t, (dLookup t s.bid_depth).getD 0 = sideSum Side.Buy t s.orders ∧
        (dLookup t s.ask_depth).getD 0 = sideSum Side.Sell t s.orders := by
  have hls : 0 < (1 : ℚ) := by norm_num
  have hops : ∀ op ∈ ([Op.addBuy 1 10 1 0, Op.addSell 2 20 1 0,
      Op.delOrder 1 0] : List Op), okL3 1 op = true := by
    intro op hop
    rcases List.mem_cons.mp hop with hcase | hop2
    · subst hcase
      norm_num [okL3, roundQ]
    rcases List.mem_cons.mp hop2 with hcase | hop3
    · subst hcase
      norm_num [okL3, roundQ]
    rcases List.mem_singleton.mp hop3 with rfl
    norm_num [okL3]
  cases hx : runOps (new 1 1)
      [Op.addBuy 1 10 1 0, Op.addSell 2 20 1 0, Op.delOrder 1 0] with
  | none =>
    exfalso
    obtain ⟨s2, hrun2, _⟩ := L3Inv_runOps hls hops (L3Inv_new 1 1)
    rw [hx] at hrun2
    exact Option.noConfusion hrun2
  | some s0 =>
    exact ⟨hls, hops, s0, rfl,
      c8_amended_l3_sum_matches_depth 1 1 hls _ hops s0 hx⟩

/-! ### Claim C9 -/

/-- C9: from a fresh engine, using only the L3 mutators with every
quantity rounding to at least one lot, the run never panics (so every
depth lookup that the source unwraps inside `delete_order` and
`modify_order` succeeds), and every order in the index has its price
tick present as a key of its side's depth map. -/
theorem c9_l3_no_panic_ticks_present (tsz ls : ℚ) (hls : 0 < ls)
    (ops : List Op) (hops : ∀ op ∈ ops, okL3 ls op = true) :
    ∃ s, runOps (new tsz ls) ops = some s ∧
      ∀ p ∈ s.orders,
        (p.2.side = Side.Buy →
          (dLookup p.2.price_tick s.bid_depth).isSome) ∧
        (p.2.side = Side.Sell →
          (dLookup p.2.price_tick s.ask_depth).isSome) := by
  obtain ⟨s2, hrun2, hinv⟩ := L3Inv_runOps hls hops (L3Inv_new tsz ls)
  refine ⟨s2, hrun2, ?_⟩
  intro p hp
  have hq2 := hinv.qty_ok p hp
  constructor
  · intro hside
    have hsum := hinv.bid_sum p.2.price_tick
    have hge : p.2.qty ≤ sideSum Side.Buy p.2.price_tick s2.orders :=
      contrib_le_sideSum Side.Buy p.2.price_tick
        (show (p.1, p.2) ∈ s2.orders from by rw [Prod.mk.eta]; exact hp)
        hside rfl (inv_qty_nonneg hls hinv.qty_ok)
    cases hq : dLookup p.2.price_tick s2.bid_depth with
    | none =>
      exfalso
      rw [hq] at hsum
      simp only [Option.getD_none] at hsum
      rw [← hsum] at hge
      linarith
    | some q0 => rfl
  · intro hside
    have hsum := hinv.ask_sum p.2.price_tick
    have hge : p.2.qty ≤ sideSum Side.Sell p.2.price_tick s2.orders :=
      contrib_le_sideSum Side.Sell p.2.price_tick
        (show (p.1, p.2) ∈ s2.orders from by rw [Prod.mk.eta]; exact hp)
        hside rfl (inv_qty_nonneg hls hinv.qty_ok)
    cases hq : dLookup p.2.price_tick s2.ask_depth with
    | none =>
      exfalso
      rw [hq] at hsum
      simp only [Option.getD_none] at hsum
      rw [← hsum] at hge
      linarith
    | some q0 => rfl

/-- Witness for C9 on a concrete run. -/
theorem c9_witness :
    0 < (1 : ℚ) ∧
    (∀ op ∈ ([Op.addBuy 1 10 1 0, Op.modOrder 1 12 2 0, Op.delOrder 1 0] :
      List Op), okL3 1 op = true) ∧
    ∃ s, runOps (new 1 1)
        [Op.addBuy 1 10 1 0, Op.modOrder 1 12 2 0, Op.delOrder 1 0] =
        some s ∧
      ∀ p ∈ s.orders,
        (p.2.side = Side.Buy →
          (dLookup p.2.price_tick s.bid_depth).isSome) ∧
        (p.2.side = Side.Sell →
          (dLookup p.2.price_tick s.ask_depth).isSome) := by
  have hls : 0 < (1 : ℚ) := by norm_num
  have hops : ∀ op ∈ ([Op.addBuy 1 10 1 0, Op.modOrder 1 12 2 0,
      Op.delOrder 1 0] : List Op), okL3 1 op = true := by
    intro op hop
    rcases List.mem_cons.mp hop with hcase | hop2
    · subst hcase
      norm_num [okL3, roundQ]
    rcases List.mem_cons.mp hop2 with hcase | hop3
    · subst hcase
      norm_num [okL3, roundQ]
    rcases List.mem_singleton.mp hop3 with rfl
    norm_num [okL3]
  exact ⟨hls, hops, c9_l3_no_panic_ticks_present 1 1 hls _ hops⟩

/-! ### Claim C7 (amended) -/

theorem foldl_applyEvent_lookup (tsz : ℚ) (data : List Event) (t : ℤ) :
    dLookup t (data.foldl (applyEvent tsz) ([], [])).1 =
      lastBidWrite tsz data t ∧
    dLookup t (data.foldl (applyEvent tsz) ([], [])).2 =
      lastAskWrite tsz data t := by
  induction data using List.reverseRecOn with
  | nil => simp [lastBidWrite, lastAskWrite, dLookup]
  | append_singleton bs e ih =>
    rw [List.foldl_append, List.foldl_cons, List.foldl_nil]
    simp only [lastBidWrite, lastAskWrite, List.filter_append,
      List.filter_cons, List.filter_nil] at ih ⊢
    by_cases hb : e.ev &&& BUY_EVENT = BUY_EVENT
    · have hbe : isBuyEvent e = true := by
        simp [isBuyEvent, hb]
      simp only [applyEvent, if_pos hb]
      constructor
      · rw [dLookup_dInsert]
        by_cases ht : t = toTick e.px tsz
        · rw [if_pos ht]
          simp [hbe, ht, List.getLast?_concat]
        · rw [if_neg ht]
          have hnt : ¬toTick e.px tsz = t := fun hc => ht hc.symm
          simp [hbe, hnt, ih.1]
      · simp [hbe, ih.2]
    · by_cases hs : e.ev &&& SELL_EVENT = SELL_EVENT
      · have hbe : isBuyEvent e = false := by
          simp [isBuyEvent, hb]
        have hse : isSellEvent e = true := by
          simp [isSellEvent, hs]
        simp only [applyEvent, if_neg hb, if_pos hs]
        constructor
        · simp [hbe, ih.1]
        · rw [dLookup_dInsert]
          by_cases ht : t = toTick e.px tsz
          · rw [if_pos ht]
            simp [hbe, hse, ht, List.getLast?_concat]
          · rw [if_neg ht]
            have hnt : ¬toTick e.px tsz = t := fun hc => ht hc.symm
            simp [hbe, hse, hnt, ih.2]
      · have hbe : isBuyEvent e = false := by
          simp [isBuyEvent, hb]
        have hse : isSellEvent e = false := by
          simp [isSellEvent, hs]
        simp only [applyEvent, if_neg hb, if_neg hs]
        exact ⟨by simp [hbe, ih.1], by simp [hbe, hse, ih.2]⟩

theorem foldl_applyEvent_sorted (tsz : ℚ) (data : List Event) :
    ∀ m : DepthMap × DepthMap, (dKeys m.1).Sorted (· < ·) →
      (dKeys m.2).Sorted (· < ·) →
      (dKeys (data.foldl (applyEvent tsz) m).1).Sorted (· < ·) ∧
      (dKeys (data.foldl (applyEvent tsz) m).2).Sorted (· < ·) := by
  induction data with
  | nil => exact fun m h1 h2 => ⟨h1, h2⟩
  | cons e rest ih =>
    intro m h1 h2
    rw [List.foldl_cons]
    apply ih
    · simp only [applyEvent]
      split
      · exact dInsert_sorted h1
      · split
        · exact h1
        · exact h1
    · simp only [applyEvent]
      split
      · exact h2
      · split
        · exact dInsert_sorted h2
        · exact h2

/-- C7 (amended): `apply_snapshot` discards both maps and rebuilds them
from the batch: the bid level at each tick is the quantity of the last
record carrying the `BUY_EVENT` bit at that tick, and the ask level is
the quantity of the last record carrying the `SELL_EVENT` bit and not
the `BUY_EVENT` bit (buy takes precedence when both bits are set — the
correction to the claim); afterwards both best-tick caches satisfy I1
and the L3 order index is completely unchanged. -/
theorem c7_amended_apply_snapshot_spec (s : BTreeMarketDepth)
    (data : List Event) :
    (∀ t, dLookup t (apply_snapshot s data).bid_depth =
      lastBidWrite s.tick_size data t) ∧
    (∀ t, dLookup t (apply_snapshot s data).ask_depth =
      lastAskWrite s.tick_size data t) ∧
    maxKeyProp (apply_snapshot s data).best_bid_tick
      (apply_snapshot s data).bid_depth ∧
    minKeyProp (apply_snapshot s data).best_ask_tick
      (apply_snapshot s data).ask_depth ∧
    (apply_snapshot s data).orders = s.orders := by
  have hsort := foldl_applyEvent_sorted s.tick_size data ([], [])
    (by simp [dKeys]) (by simp [dKeys])
  refine ⟨?_, ?_, ?_, ?_, rfl⟩
  · intro t
    exact (foldl_applyEvent_lookup s.tick_size data t).1
  · intro t
    exact (foldl_applyEvent_lookup s.tick_size data t).2
  · exact lastKey_maxKeyProp hsort.1
  · exact firstKey_minKeyProp hsort.2

end BTreeDepth